import Mathlib

/-! Registry login of the image-reflector-controller.

A shallow embedding of `internal/registry` (packages `registry`, `aws`,
`azure`, `login`) and proofs of its specification.

Conventions of the embedding.

* Image strings and registry hosts are text: Lean `String`s, scanned code
  point by code point as Go's `regexp` does on valid UTF-8.
* Credentials (tokens, user names, passwords) are Go strings with arbitrary
  content: lists of bytes.
* A Go result pair `(value, error)` is a Lean pair whose second component
  is `Option Error`; `none` is Go's `nil` error.
* Every call that leaves the process (AWS SDK, Azure identity, the ACR
  exchange, the GCP client) is a field of an environment record.
-/

set_option autoImplicit false

/-! ## Package `regexp` (Go standard library): leftmost-first matching -/

namespace regexp

/-- One character position of a pattern. -/
inductive Atom where
  /-- A literal character such as `d`, or an escaped one such as `\.`. -/
  | lit (c : Char)
  /-- The dot: any character but a line feed (flag `s` is not set). -/
  | dot
  /-- A bracket expression given by its inclusive ranges; `neg` stands for a
  leading `^`. A negated class matches the line feed as well. -/
  | cls (neg : Bool) (ranges : List (Char × Char))
  deriving Repr

/-- Whether the atom accepts the character. -/
def Atom.accepts : Atom → Char → Bool
  | .lit c, x => x == c
  | .dot, x => x != '\n'
  | .cls neg ranges, x =>
      (ranges.any fun r => decide (r.1.toNat ≤ x.toNat) && decide (x.toNat ≤ r.2.toNat)) != neg

/-- Greedy repetition operators on one atom. -/
inductive Quant where
  | one
  | star
  | plus
  | opt
  deriving Repr, DecidableEq

/-- An atom together with its repetition operator. -/
structure Piece where
  atom : Atom
  quant : Quant
  deriving Repr

/-- A run of consecutive pieces; `capture` says whether it is parenthesised. -/
structure Group where
  capture : Bool
  pieces : List Piece
  deriving Repr

/-- A compiled pattern: a concatenation of groups. -/
abbrev Regexp := List Group

/-- Greedy `a*` followed by the continuation `k`: take as many characters as
possible, giving one back at a time while the continuation fails. -/
def matchStar {R : Type} (a : Atom) (k : List Char → Option R) :
    List Char → Option (List Char × R)
  | [] => (k []).map fun r => ([], r)
  | c :: cs =>
      if a.accepts c then
        match matchStar a k cs with
        | some (t, r) => some (c :: t, r)
        | none => (k (c :: cs)).map fun r => ([], r)
      else (k (c :: cs)).map fun r => ([], r)

/-- Backtracking match of a run of pieces at the head of the input, followed
by the continuation `k`; yields the text the run consumed. -/
def matchPieces {R : Type} : List Piece → (List Char → Option R) → List Char →
    Option (List Char × R)
  | [], k, s => (k s).map fun r => ([], r)
  | ⟨a, .one⟩ :: ps, k, s =>
      match s with
      | [] => none
      | c :: cs =>
          if a.accepts c then (matchPieces ps k cs).map fun tr => (c :: tr.1, tr.2)
          else none
  | ⟨a, .star⟩ :: ps, k, s =>
      (matchStar a (matchPieces ps k) s).map fun tr => (tr.1 ++ tr.2.1, tr.2.2)
  | ⟨a, .plus⟩ :: ps, k, s =>
      match s with
      | [] => none
      | c :: cs =>
          if a.accepts c then
            (matchStar a (matchPieces ps k) cs).map fun tr => (c :: (tr.1 ++ tr.2.1), tr.2.2)
          else none
  | ⟨a, .opt⟩ :: ps, k, s =>
      match s with
      | [] => matchPieces ps k []
      | c :: cs =>
          if a.accepts c then
            match matchPieces ps k cs with
            | some tr => some (c :: tr.1, tr.2)
            | none => matchPieces ps k (c :: cs)
          else matchPieces ps k (c :: cs)

/-- Match of the whole pattern anchored at the head of the input: the text
consumed by each group, in order. -/
def matchGroups : Regexp → List Char → Option (List (List Char))
  | [], _ => some []
  | g :: gs, s => (matchPieces g.pieces (fun s' => matchGroups gs s') s).map fun tr => tr.1 :: tr.2

/-- Submatch slice of an anchored match: the whole match first, then the text
of every capturing group. -/
def submatches (re : Regexp) (texts : List (List Char)) : List String :=
  String.mk texts.flatten ::
    ((re.zip texts).filter fun gt => gt.1.capture).map fun gt => String.mk gt.2

/-- Leftmost match: the first start position at which the anchored match
succeeds. Yields the submatch slice and the input left after the match. -/
def findFirst (re : Regexp) : List Char → Option (List String × List Char)
  | [] => (matchGroups re []).map fun texts => (submatches re texts, [])
  | c :: cs =>
      match matchGroups re (c :: cs) with
      | some texts => some (submatches re texts, (c :: cs).drop texts.flatten.length)
      | none => findFirst re cs

/-- Successive non-overlapping matches, at most `fuel` of them. Go treats a
match of the empty string specially; no pattern used here has one. -/
def findAllAux (re : Regexp) : Nat → List Char → List (List String)
  | 0, _ => []
  | fuel + 1, s =>
      match findFirst re s with
      | none => []
      | some (m, rest) => m :: findAllAux re fuel rest

/-- Model of `(*Regexp).FindAllStringSubmatch(s, n)`: the submatch slices of
the successive matches of the pattern in `s`, all of them when `n < 0`. -/
def FindAllStringSubmatch (re : Regexp) (s : String) (n : Int) : List (List String) :=
  let all := findAllAux re (s.length + 1) s.data
  if n < 0 then all else all.take n.toNat

end regexp

/-! ## Package `aws`: `ParseImage` -/

namespace aws

/-- The pattern compiled in `ParseImage`:
`([0-9+]*).dkr.ecr.([^/.]*)\.(amazonaws\.com[.cn]*)/([^:]+):?(.*)`. -/
def registryPartRe : regexp.Regexp :=
  let l (c : Char) : regexp.Piece := ⟨.lit c, .one⟩
  let d : regexp.Piece := ⟨.dot, .one⟩
  [ ⟨true,  [⟨.cls false [('0', '9'), ('+', '+')], .star⟩]⟩,
    ⟨false, [d, l 'd', l 'k', l 'r', d, l 'e', l 'c', l 'r', d]⟩,
    ⟨true,  [⟨.cls true [('/', '/'), ('.', '.')], .star⟩]⟩,
    ⟨false, [l '.']⟩,
    ⟨true,  [l 'a', l 'm', l 'a', l 'z', l 'o', l 'n', l 'a', l 'w', l 's', l '.',
             l 'c', l 'o', l 'm', ⟨.cls false [('.', '.'), ('c', 'c'), ('n', 'n')], .star⟩]⟩,
    ⟨false, [l '/']⟩,
    ⟨true,  [⟨.cls true [(':', ':')], .plus⟩]⟩,
    ⟨false, [⟨.lit ':', .opt⟩]⟩,
    ⟨true,  [⟨.dot, .star⟩]⟩ ]

/-- Model of `ParseImage`: account id, region and `true` when the pattern is
found in the image, empty strings and `false` otherwise. -/
def ParseImage (image : String) : String × String × Bool :=
  let registryParts := regexp.FindAllStringSubmatch registryPartRe image (-1)
  if registryParts.length < 1 then ("", "", false)
  else ((registryParts.getD 0 []).getD 1 "", (registryParts.getD 0 []).getD 2 "", true)

end aws


/-! ## Go strings, errors and outcomes -/

/-- One byte of a Go string. -/
abbrev Byte := Fin 256

/-- A Go string holding a credential: a sequence of bytes. -/
abbrev GoString := List Byte

/-- The Go string written as an ASCII literal. -/
def GoString.ofASCII (s : String) : GoString :=
  s.data.map fun c => Fin.ofNat c.toNat

/-- Go error values. -/
inductive Error where
  /-- The value of `errors.New(text)`, or of `fmt.Errorf` without `%w`. -/
  | New (text : String)
  /-- The value of `fmt.Errorf(pre + "%w", err)`. -/
  | Wrap (pre : String) (err : Error)
  /-- A `base64.CorruptInputError` and its byte offset. -/
  | CorruptInput (offset : Nat)
  /-- An error made outside this repository (cloud SDK, HTTP, ...). -/
  | External (text : String)
  deriving DecidableEq, Repr

/-- The text given by the `Error()` method. -/
def Error.message : Error → String
  | .New text => text
  | .Wrap pre err => pre ++ err.message
  | .CorruptInput offset => "illegal base64 data at input byte " ++ toString offset
  | .External text => text

/-- The `Unwrap()` method, where the error has one. -/
def Error.Unwrap : Error → Option Error
  | .Wrap _ err => some err
  | _ => none

namespace errors

/-- Model of `errors.Is`: the target is the error or occurs in its chain. -/
def Is : Error → Error → Bool
  | .Wrap pre err, target => decide (Error.Wrap pre err = target) || Is err target
  | err, target => decide (err = target)

end errors

/-- What a panic carries. -/
inductive PanicValue where
  /-- A call of `panic(err)`, as `session.Must` makes. -/
  | ofError (err : Error)
  /-- Runtime error: index out of range. -/
  | indexOutOfRange
  /-- Runtime error: nil pointer dereference. -/
  | nilDereference
  deriving DecidableEq, Repr

/-- How a call ends: it returns a value or it panics. -/
inductive Outcome (α : Type) where
  | returned (value : α)
  | panicked (p : PanicValue)
  deriving DecidableEq, Repr

deriving instance DecidableEq for Except

/-! ## Package `strings` -/

namespace strings

/-- Model of `strings.HasSuffix`:
`len(s) >= len(suffix) && s[len(s)-len(suffix):] == suffix`. -/
def HasSuffix (s suffix : String) : Bool :=
  decide (s.length ≥ suffix.length) && (s.data.drop (s.length - suffix.length) == suffix.data)

/-- Model of `strings.Split(s, sep)` for a separator of one byte: the pieces of
`s` between the occurrences of `sep`. -/
def Split (s : GoString) (sep : Byte) : List GoString :=
  match s with
  | [] => [[]]
  | b :: bs =>
      if b = sep then [] :: Split bs sep
      else
        match Split bs sep with
        | [] => [[b]]
        | piece :: pieces => (b :: piece) :: pieces

end strings

/-! ## Package `encoding/base64` (Go standard library) -/

namespace base64

/-- The alphabet of `StdEncoding` (RFC 4648, section 4). -/
def encodeStd : GoString :=
  GoString.ofASCII "ABCDEFGHIJKLMNOPQRSTUVWXYZabcdefghijklmnopqrstuvwxyz0123456789+/"

/-- The padding character `=`. -/
def StdPadding : Byte := 61

/-- The table `decodeMap`: the value of an alphabet byte. -/
def decodeMap (b : Byte) : Option Nat :=
  let i := encodeStd.indexOf b
  if i < 64 then some i else none

/-- Skip line breaks, counting them. -/
def skipNewlines : GoString → Nat → GoString × Nat
  | [], si => ([], si)
  | b :: bs, si =>
      if b = 10 ∨ b = 13 then skipNewlines bs (si + 1) else (b :: bs, si)

/-- After the padding of the last quantum only line breaks may follow. -/
def afterPadding (out : GoString) (s : GoString) (si : Nat) : Except Error GoString :=
  match skipNewlines s si with
  | ([], _) => .ok out
  | (_ :: _, si') => .error (.CorruptInput si')

/-- Model of `(*Encoding).Decode` for `StdEncoding`, one input byte at a time:
`j` counts the values read in the current quantum, `val` packs them six bits
each, `si` is the offset of the next input byte and `len` the input length. -/
def decodeLoop (len : Nat) : Nat → Nat → GoString → Nat → Except Error GoString
  | j, _, [], _ => if j = 0 then .ok [] else .error (.CorruptInput (len - j))
  | j, val, b :: bs, si =>
      match decodeMap b with
      | some v =>
          if j = 3 then
            let w := val * 64 + v
            (decodeLoop len 0 0 bs (si + 1)).map fun out =>
              Fin.ofNat (w / 65536) :: Fin.ofNat (w / 256) :: Fin.ofNat w :: out
          else decodeLoop len (j + 1) (val * 64 + v) bs (si + 1)
      | none =>
          if b = 10 ∨ b = 13 then decodeLoop len j val bs (si + 1)
          else if b ≠ StdPadding then .error (.CorruptInput si)
          else if j = 0 ∨ j = 1 then .error (.CorruptInput si)
          else if j = 2 then
            match skipNewlines bs (si + 1) with
            | ([], _) => .error (.CorruptInput len)
            | (b' :: bs', si') =>
                if b' ≠ StdPadding then .error (.CorruptInput (si' - 1))
                else afterPadding [Fin.ofNat (val / 16)] bs' (si' + 1)
          else afterPadding [Fin.ofNat (val / 1024), Fin.ofNat (val / 4)] bs (si + 1)

/-- Model of `StdEncoding.DecodeString`. -/
def DecodeString (s : GoString) : Except Error GoString :=
  decodeLoop s.length 0 0 s 0

/-- The alphabet byte of a six-bit value. -/
def encodeByte (v : Nat) : Byte :=
  encodeStd.getD v StdPadding

/-- Model of `StdEncoding.EncodeToString`. -/
def EncodeToString : GoString → GoString
  | [] => []
  | [a] => [encodeByte (a.val / 4), encodeByte (a.val % 4 * 16), StdPadding, StdPadding]
  | [a, b] =>
      [encodeByte (a.val / 4), encodeByte (a.val % 4 * 16 + b.val / 16),
        encodeByte (b.val % 16 * 4), StdPadding]
  | a :: b :: c :: rest =>
      encodeByte (a.val / 4) :: encodeByte (a.val % 4 * 16 + b.val / 16) ::
        encodeByte (b.val % 16 * 4 + c.val / 64) :: encodeByte (c.val % 64) ::
        EncodeToString rest

/-- What the decoder asks of an input byte: whether it is in the alphabet, a
line break, the padding character or none of these. -/
inductive ByteClass where
  | alphabet
  | lineBreak
  | padding
  | illegal
  deriving DecidableEq, Repr

/-- The class of an input byte. -/
def byteClass (b : Byte) : ByteClass :=
  match decodeMap b with
  | some _ => .alphabet
  | none =>
      if b = 10 ∨ b = 13 then .lineBreak
      else if b = StdPadding then .padding
      else .illegal

end base64


/-! ## Package `registry` -/

namespace registry

/-- Provider is used to categorize the registry providers. -/
inductive Provider where
  | ProviderGeneric
  | ProviderAWS
  | ProviderGCR
  | ProviderAzure
  deriving DecidableEq, Repr

export Provider (ProviderGeneric ProviderAWS ProviderGCR ProviderAzure)

/-- ErrUnconfiguredProvider is returned when the image registry provider is
not configured for login. -/
def ErrUnconfiguredProvider : Error := .New "registry provider not configured for login"

end registry

/-! ## Package `authn` and `name` (go-containerregistry) -/

namespace authn

/-- The fields of `authn.AuthConfig` this repository sets. -/
structure AuthConfig where
  Username : GoString := []
  Password : GoString := []
  deriving DecidableEq, Repr, Inhabited

/-- The authenticator `authn.FromConfig` builds: it hands out the
configuration it was given. -/
structure Authenticator where
  cfg : AuthConfig
  deriving DecidableEq, Repr

/-- Model of `authn.FromConfig`. -/
def FromConfig (cfg : AuthConfig) : Authenticator := ⟨cfg⟩

end authn

namespace name

/-- A parsed image reference; `RegistryStr` is `ref.Context().RegistryStr()`. -/
structure Reference where
  RegistryStr : String
  RepositoryStr : String := ""
  Identifier : String := ""
  deriving DecidableEq, Repr

end name

/-- The result pair `(authn.Authenticator, error)` of a `Login`. -/
abbrev LoginResult := Option authn.Authenticator × Option Error

/-! ## Package `aws`: the ECR client -/

namespace ecr

/-- One entry of the authorization data of an ECR response. -/
structure AuthorizationData where
  AuthorizationToken : Option GoString
  deriving DecidableEq, Repr

/-- The response of `GetAuthorizationToken`. -/
structure GetAuthorizationTokenOutput where
  AuthorizationData : List ecr.AuthorizationData
  deriving DecidableEq, Repr

end ecr

namespace aws

/-- The part of `aws.Config` this package writes. -/
structure Config where
  Region : Option String := none
  deriving DecidableEq, Repr

/-- Model of `(*aws.Config).WithRegion`: it sets the region of the receiver
and returns the receiver. -/
def Config.WithRegion (c : Config) (region : String) : Config :=
  { c with Region := some region }

/-- The AWS SDK as this package uses it. -/
structure SDK where
  /-- The error of `session.NewSession(cfg)`, if any. -/
  NewSession : Config → Option Error
  /-- The call `GetAuthorizationToken` of an ECR service made for a session
  of the configuration, with the given registry ids. -/
  GetAuthorizationToken : Config → List String → Except Error ecr.GetAuthorizationTokenOutput

/-- Client is a AWS ECR client which can log into the registry and return
authorization information. Its configuration is held by pointer. -/
structure Client where
  Config : aws.Config
  deriving DecidableEq, Repr

/-- NewClient creates a new ECR client with default configurations. -/
def NewClient : Client := ⟨{}⟩

/-- Model of `(*Client).getLoginAuth`: the result pair, or a panic, and the
client afterwards. -/
def Client.getLoginAuth (sdk : SDK) (c : Client) (accountId awsEcrRegion : String) :
    Outcome (authn.AuthConfig × Option Error) × Client :=
  let authConfig : authn.AuthConfig := {}
  let accountIDs := [accountId]
  -- Configure session.
  let cfg := c.Config.WithRegion awsEcrRegion
  let c : Client := { c with Config := cfg }
  match sdk.NewSession cfg with
  | some err => (.panicked (.ofError err), c)
  | none =>
  match sdk.GetAuthorizationToken cfg accountIDs with
  | .error err => (.returned (authConfig, some err), c)
  | .ok ecrToken =>
  -- Validate the authorization data.
  if ecrToken.AuthorizationData.length = 0 then
    (.returned (authConfig, some (.New "no authorization data")), c)
  else
  match ecrToken.AuthorizationData[0]? with
  | none => (.panicked .indexOutOfRange, c)
  | some data =>
  if data.AuthorizationToken = none then
    (.returned (authConfig, some (.New "no authorization token")), c)
  else
  match data.AuthorizationToken with
  | none => (.panicked .nilDereference, c)
  | some encoded =>
  match base64.DecodeString encoded with
  | .error err => (.returned (authConfig, some err), c)
  | .ok token =>
  let tokenSplit := strings.Split token 58
  -- Validate the tokens.
  if tokenSplit.length ≠ 2 then
    (.returned (authConfig, some (.New
      ("invalid authorization token, expected to be of length 2, have " ++
        toString tokenSplit.length))), c)
  else
  match tokenSplit[0]?, tokenSplit[1]? with
  | some user, some pass => (.returned ({ Username := user, Password := pass }, none), c)
  | _, _ => (.panicked .indexOutOfRange, c)

/-- Model of `(*Client).Login` of the ECR client: the result, the lines
logged and the client afterwards. -/
def Client.Login (sdk : SDK) (c : Client) (autoLogin : Bool) (image : String) :
    Outcome LoginResult × List String × Client :=
  if autoLogin then
    let log := ["logging in to AWS ECR for " ++ image]
    let (accountId, awsEcrRegion, ok) := ParseImage image
    if !ok then
      (.returned (none, some (.New "failed to parse AWS ECR image, invalid ECR image")), log, c)
    else
      match c.getLoginAuth sdk accountId awsEcrRegion with
      | (.panicked p, c) => (.panicked p, log, c)
      | (.returned (_, some err), c) => (.returned (none, some err), log, c)
      | (.returned (authConfig, none), c) =>
          (.returned (some (authn.FromConfig authConfig), none), log, c)
  else
    (.returned (none, some (.Wrap "ECR authentication failed: " registry.ErrUnconfiguredProvider)),
      ["ECR authentication is not enabled. To enable, set the controller flag --aws-autologin-for-ecr"],
      c)

end aws

/-! ## Package `azure`: the ACR client -/

namespace azcore

/-- The token of `azcore.AccessToken`. -/
structure AccessToken where
  Token : GoString
  deriving DecidableEq, Repr

/-- The interface `azcore.TokenCredential`: `GetToken` for the given scopes. -/
structure TokenCredential where
  GetToken : List String → Except Error AccessToken

end azcore

namespace azure

/-- The world outside the ACR client. -/
structure Backend where
  /-- Result of `azidentity.NewDefaultAzureCredential(nil)`. -/
  NewDefaultAzureCredential : Except Error azcore.TokenCredential
  /-- Result of `newExchanger(endpoint).ExchangeACRAccessToken(armToken)`. -/
  ExchangeACRAccessToken : String → GoString → Except Error GoString

/-- Client is an Azure ACR client which can log into the registry and return
authorization information. -/
structure Client where
  credential : Option azcore.TokenCredential
  scheme : String

/-- NewClient creates a new ACR client with default configurations. -/
def NewClient : Client := ⟨none, "https"⟩

/-- WithTokenCredential sets the token credential used by the ACR client. -/
def Client.WithTokenCredential (c : Client) (tc : azcore.TokenCredential) : Client :=
  { c with credential := some tc }

/-- WithScheme sets the scheme of the http request that the client makes. -/
def Client.WithScheme (c : Client) (scheme : String) : Client :=
  { c with scheme := scheme }

/-- The scope `string(arm.AzurePublicCloud) + ".default"`. -/
def armScope : String := "https://management.azure.com/" ++ ".default"

/-- The part of `getLoginAuth` after the credential is known to be set. -/
def Client.exchange (be : Backend) (c : Client) (credential : azcore.TokenCredential)
    (ref : name.Reference) : authn.AuthConfig × Option Error :=
  let authConfig : authn.AuthConfig := {}
  -- Obtain access token using the token credential.
  match credential.GetToken [armScope] with
  | .error err => (authConfig, some err)
  | .ok armToken =>
  -- Obtain ACR access token using exchanger.
  let endpoint := c.scheme ++ "://" ++ ref.RegistryStr
  match be.ExchangeACRAccessToken endpoint armToken.Token with
  | .error err => (authConfig, some (.Wrap "error exchanging token: " err))
  | .ok accessToken =>
  ({ Username := GoString.ofASCII "00000000-0000-0000-0000-000000000000",
     Password := accessToken }, none)

/-- Model of `(*Client).getLoginAuth` of the ACR client: the result pair and
the client afterwards. -/
def Client.getLoginAuth (be : Backend) (c : Client) (ref : name.Reference) :
    (authn.AuthConfig × Option Error) × Client :=
  let authConfig : authn.AuthConfig := {}
  -- Use default credentials if no token credential is provided.
  match c.credential with
  | none =>
      match be.NewDefaultAzureCredential with
      | .error err => ((authConfig, some err), c)
      | .ok cred =>
          let c : Client := { c with credential := some cred }
          (c.exchange be cred ref, c)
  | some credential => (c.exchange be credential ref, c)

/-- ValidHost returns if a given host is a Azure container registry. -/
def ValidHost (host : String) : Bool :=
  let rec loop : List String → Bool
    | [] => false
    | v :: vs => if strings.HasSuffix host v then true else loop vs
  loop [".azurecr.io", ".azurecr.cn", ".azurecr.de", ".azurecr.us"]

/-- Model of `(*Client).Login` of the ACR client: the result, the lines
logged and the client afterwards. -/
def Client.Login (be : Backend) (c : Client) (autoLogin : Bool) (image : String)
    (ref : name.Reference) : Outcome LoginResult × List String × Client :=
  if autoLogin then
    let log := ["logging in to Azure ACR for " ++ image]
    match c.getLoginAuth be ref with
    | ((_, some err), c) =>
        (.returned (none, some err), log ++ ["error logging into ACR " ++ err.message], c)
    | ((authConfig, none), c) => (.returned (some (authn.FromConfig authConfig), none), log, c)
  else
    (.returned (none, some (.Wrap "ACR authentication failed: " registry.ErrUnconfiguredProvider)),
      ["ACR authentication is not enabled. To enable, set the controller flag --azure-autologin-for-acr"],
      c)

end azure

/-! ## Package `gcp`: not among the sources, taken as a parameter -/

namespace gcp

/-- The GCR client as package `login` uses it: the state of a client, the
host predicate `ValidHost` and the method `Login`. -/
structure Package where
  Client : Type
  NewClient : Client
  ValidHost : String → Bool
  Login : Client → Bool → String → name.Reference → Outcome LoginResult × List String × Client

/-- Modelled from the spec: package `gcp` is not among the sources. `ValidHost`
checks the host against a set of suffixes, which the specification leaves
open; `Login` fails with `ErrUnconfiguredProvider` when autologin is off, and
otherwise turns the ambient OAuth2 access token into
`AuthConfig{Username: "oauth2accesstoken", Password: token}`. -/
def fromSpec (suffixes : List String) (ambientToken : Except Error GoString) : Package where
  Client := Unit
  NewClient := ()
  ValidHost host := suffixes.any fun v => strings.HasSuffix host v
  Login c autoLogin _ _ :=
    if autoLogin then
      match ambientToken with
      | .error err => (.returned (none, some err), [], c)
      | .ok token =>
          (.returned (some (authn.FromConfig
            { Username := GoString.ofASCII "oauth2accesstoken", Password := token }), none), [], c)
    else (.returned (none, some registry.ErrUnconfiguredProvider), [], c)

end gcp

/-! ## Package `login` -/

namespace login

/-- ImageRegistryProvider analyzes the provided image and returns the
identified container image registry provider. -/
def ImageRegistryProvider (gcp : gcp.Package) (image : String) (ref : name.Reference) :
    registry.Provider :=
  let (_, _, ok) := aws.ParseImage image
  if ok then registry.ProviderAWS
  else if gcp.ValidHost ref.RegistryStr then registry.ProviderGCR
  else if azure.ValidHost ref.RegistryStr then registry.ProviderAzure
  else registry.ProviderGeneric

/-- ProviderOptions contains options for registry provider login. -/
structure ProviderOptions where
  AwsAutoLogin : Bool := false
  GcpAutoLogin : Bool := false
  AzureAutoLogin : Bool := false
  deriving DecidableEq, Repr

/-- Manager is a login manager for various registry providers. -/
structure Manager (gcp : gcp.Package) where
  ecr : aws.Client
  gcr : gcp.Client
  acr : azure.Client

/-- The world outside the manager. -/
structure World where
  aws : aws.SDK
  azure : azure.Backend

/-- NewManager initializes a Manager with default registry clients
configurations. -/
def NewManager (gcp : gcp.Package) : Manager gcp :=
  { ecr := aws.NewClient, gcr := gcp.NewClient, acr := azure.NewClient }

/-- WithECRClient allows overriding the default ECR client. -/
def Manager.WithECRClient {gcp : gcp.Package} (m : Manager gcp) (c : aws.Client) : Manager gcp :=
  { m with ecr := c }

/-- WithGCRClient allows overriding the default GCR client. -/
def Manager.WithGCRClient {gcp : gcp.Package} (m : Manager gcp) (c : gcp.Client) : Manager gcp :=
  { m with gcr := c }

/-- WithACRClient allows overriding the default ACR client. -/
def Manager.WithACRClient {gcp : gcp.Package} (m : Manager gcp) (c : azure.Client) :
    Manager gcp :=
  { m with acr := c }

/-- Login performs authentication against a registry and returns the
authentication material. For generic registry provider, it is no-op. The
model gives the result, the lines logged and the manager afterwards. -/
def Manager.Login {gcp : gcp.Package} (w : World) (m : Manager gcp) (image : String)
    (ref : name.Reference) (opts : ProviderOptions) :
    Outcome LoginResult × List String × Manager gcp :=
  match ImageRegistryProvider gcp image ref with
  | .ProviderAWS =>
      let (r, log, c) := m.ecr.Login w.aws opts.AwsAutoLogin image
      (r, log, { m with ecr := c })
  | .ProviderGCR =>
      let (r, log, c) := gcp.Login m.gcr opts.GcpAutoLogin image ref
      (r, log, { m with gcr := c })
  | .ProviderAzure =>
      let (r, log, c) := m.acr.Login w.azure opts.AzureAutoLogin image ref
      (r, log, { m with acr := c })
  | .ProviderGeneric => (.returned (none, none), [], m)

end login

/-! ## Package `azure`: the token exchange and sequences of calls -/

/-- The text of a Go string, byte by byte (exact for ASCII). -/
def GoString.text (s : GoString) : String :=
  String.mk (s.map fun b => Char.ofNat b.val)

namespace azure

/-- A JSON value as `encoding/json` reads it. -/
inductive JSON where
  | null
  | bool (b : Bool)
  | number (n : Int)
  | string (s : GoString)
  | array (items : List JSON)
  | object (fields : List (String × JSON))

/-- An HTTP response: the status code, the raw body, and the JSON value the
body holds when it is well-formed JSON. -/
structure Response where
  StatusCode : Nat
  Body : GoString
  json : Option JSON

/-- The network: the response to a form POST to a URL, or a transport error. -/
abbrev PostForm := String → List (String × GoString) → Except Error Response

/-- The value of a field of a JSON object, if it has the field. -/
def JSON.field (key : String) : List (String × JSON) → Option JSON
  | [] => none
  | (k, v) :: fields => if k = key then some v else JSON.field key fields

/-- The `message` of one `{code, message}` entry of an error body. -/
def JSON.acrMessage : JSON → Option GoString
  | .object fields =>
      match JSON.field "message" fields with
      | some (.string m) => some m
      | none => some []
      | _ => none
  | _ => none

/-- The messages of a JSON array of `{code, message}` entries. -/
def JSON.acrMessages : List JSON → Option (List GoString)
  | [] => some []
  | item :: items =>
      match item.acrMessage, JSON.acrMessages items with
      | some m, some ms => some (m :: ms)
      | _, _ => none

/-- The registry host of an endpoint `scheme://host`: what follows the first
`://`. -/
def endpointHost : List Char → List Char
  | [] => []
  | ':' :: '/' :: '/' :: host => host
  | _ :: cs => endpointHost cs

/-- Modelled from the spec: `exchanger.go` (`newExchanger`,
`ExchangeACRAccessToken`) is not among the sources. The exchange POSTs the
form `grant_type=access_token&service={registryHost}&access_token={armToken}`
to `{endpoint}/oauth2/exchange`. On a 2xx status the body is read as a JSON
object whose `refresh_token` is the result, and any other body is a decode
error. On any other status the body is read as a JSON array of
`{code, message}` entries, whose messages are concatenated into the error;
when it is not such an array, the error gives the status code and the body. -/
def exchanger.ExchangeACRAccessToken (post : PostForm) (endpoint : String)
    (armToken : GoString) : Except Error GoString :=
  let form := [("grant_type", GoString.ofASCII "access_token"),
    ("service", GoString.ofASCII (String.mk (endpointHost endpoint.data))),
    ("access_token", armToken)]
  match post (endpoint ++ "/oauth2/exchange") form with
  | .error err => .error err
  | .ok resp =>
      if 200 ≤ resp.StatusCode ∧ resp.StatusCode < 300 then
        match resp.json with
        | some (.object fields) =>
            match JSON.field "refresh_token" fields with
            | some (.string token) => .ok token
            | none => .ok []
            | _ => .error (.New "ExchangeDecodeError")
        | _ => .error (.New "ExchangeDecodeError")
      else
        match resp.json with
        | some (.array items) =>
            match JSON.acrMessages items with
            | some messages =>
                .error (.New (String.join (messages.map GoString.text)))
            | none =>
                .error (.New ("ExchangeHTTPError " ++ toString resp.StatusCode ++ " " ++
                  resp.Body.text))
        | _ =>
            .error (.New ("ExchangeHTTPError " ++ toString resp.StatusCode ++ " " ++
              resp.Body.text))

/-- The backend of the ACR client over a network, with the exchange of the
specification. -/
def Backend.ofNetwork (newDefaultAzureCredential : Except Error azcore.TokenCredential)
    (post : PostForm) : Backend where
  NewDefaultAzureCredential := newDefaultAzureCredential
  ExchangeACRAccessToken := exchanger.ExchangeACRAccessToken post

/-- Model of `FakeTokenCredential` (`fake.go`): `GetToken` returns the error
when there is one, else the token. -/
def FakeTokenCredential (Token : GoString) (Err : Option Error) : azcore.TokenCredential where
  GetToken := fun _ =>
    match Err with
    | some err => .error err
    | none => .ok ⟨Token⟩

/-- One call of `Login` on the ACR client, with the backend it finds. -/
structure Call where
  be : Backend
  autoLogin : Bool
  image : String
  ref : name.Reference

/-- The client after a sequence of `Login` calls, one after the other. -/
def Client.afterLogins (c : Client) : List Call → Client
  | [] => c
  | call :: calls =>
      Client.afterLogins (c.Login call.be call.autoLogin call.image call.ref).2.2 calls

end azure

/-! ## The matcher: what a successful match consumed -/

namespace regexp

/-- The texts a run of pieces can consume. -/
def PiecesMatch : List Piece → List Char → Prop
  | [], t => t = []
  | ⟨a, .one⟩ :: ps, t => ∃ c t', t = c :: t' ∧ a.accepts c = true ∧ PiecesMatch ps t'
  | ⟨a, .star⟩ :: ps, t =>
      ∃ xs t', t = xs ++ t' ∧ (∀ x ∈ xs, a.accepts x = true) ∧ PiecesMatch ps t'
  | ⟨a, .plus⟩ :: ps, t =>
      ∃ c xs t', t = c :: (xs ++ t') ∧ a.accepts c = true ∧ (∀ x ∈ xs, a.accepts x = true) ∧
        PiecesMatch ps t'
  | ⟨a, .opt⟩ :: ps, t =>
      PiecesMatch ps t ∨ ∃ c t', t = c :: t' ∧ a.accepts c = true ∧ PiecesMatch ps t'

theorem matchStar_greedy {R : Type} (a : Atom) (k : List Char → Option R)
    (xs rest : List Char) (r : R) (hxs : ∀ x ∈ xs, a.accepts x = true)
    (hrest : ∀ c cs, rest = c :: cs → a.accepts c = false) (hk : k rest = some r) :
    matchStar a k (xs ++ rest) = some (xs, r) := by
  induction xs with
  | nil =>
      cases rest with
      | nil => simp [matchStar, hk]
      | cons c cs => simp [matchStar, hrest c cs rfl, hk]
  | cons x xs ih =>
      have hx : a.accepts x = true := hxs x (by simp)
      have ih' := ih (fun y hy => hxs y (by simp [hy]))
      simp [matchStar, hx, ih']

theorem matchStar_sound {R : Type} (a : Atom) (k : List Char → Option R) :
    ∀ (s t : List Char) (r : R), matchStar a k s = some (t, r) →
      ∃ rest, s = t ++ rest ∧ (∀ x ∈ t, a.accepts x = true) ∧ k rest = some r := by
  intro s
  induction s with
  | nil =>
      intro t r h
      simp only [matchStar, Option.map_eq_some'] at h
      obtain ⟨r', hr', heq⟩ := h
      cases heq
      exact ⟨[], by simp, by simp, hr'⟩
  | cons c cs ih =>
      intro t r h
      have fallback : (Option.map (fun r => (([] : List Char), r)) (k (c :: cs)) = some (t, r)) →
          ∃ rest, c :: cs = t ++ rest ∧ (∀ x ∈ t, a.accepts x = true) ∧ k rest = some r := by
        intro h
        simp only [Option.map_eq_some'] at h
        obtain ⟨r', hr', heq⟩ := h
        cases heq
        exact ⟨c :: cs, by simp, by simp, hr'⟩
      unfold matchStar at h
      by_cases hc : a.accepts c = true
      · simp only [hc, if_true] at h
        cases hm : matchStar a k cs with
        | none =>
            rw [hm] at h
            exact fallback h
        | some tr =>
            obtain ⟨t', r'⟩ := tr
            rw [hm] at h
            simp only [Option.some.injEq, Prod.mk.injEq] at h
            obtain ⟨ht, hr⟩ := h
            subst ht; subst hr
            obtain ⟨rest, hs, hall, hk⟩ := ih t' r' hm
            refine ⟨rest, by simp [hs], ?_, hk⟩
            intro x hx
            rcases List.mem_cons.mp hx with rfl | hx
            · exact hc
            · exact hall x hx
      · simp only [hc] at h
        exact fallback h

theorem matchPieces_sound {R : Type} (ps : List Piece) :
    ∀ (k : List Char → Option R) (s t : List Char) (r : R),
      matchPieces ps k s = some (t, r) →
      ∃ rest, s = t ++ rest ∧ PiecesMatch ps t ∧ k rest = some r := by
  induction ps with
  | nil =>
      intro k s t r h
      simp only [matchPieces, Option.map_eq_some'] at h
      obtain ⟨r', hr', heq⟩ := h
      cases heq
      exact ⟨s, by simp, by simp [PiecesMatch], hr'⟩
  | cons p ps ih =>
      intro k s t r h
      obtain ⟨a, q⟩ := p
      cases q with
      | one =>
          cases s with
          | nil => simp [matchPieces] at h
          | cons c cs =>
              by_cases hc : a.accepts c = true
              · simp only [matchPieces, hc, if_true, Option.map_eq_some'] at h
                obtain ⟨⟨t', r'⟩, hm, heq⟩ := h
                cases heq
                obtain ⟨rest, hs, hp, hk⟩ := ih k cs t' r' hm
                exact ⟨rest, by simp [hs], ⟨c, t', rfl, hc, hp⟩, hk⟩
              · simp [matchPieces, hc] at h
      | star =>
          simp only [matchPieces, Option.map_eq_some'] at h
          obtain ⟨⟨t1, t2, r'⟩, hm, heq⟩ := h
          cases heq
          obtain ⟨rest1, hs1, hall, hk1⟩ := matchStar_sound a _ s t1 (t2, r') hm
          obtain ⟨rest, hs, hp, hk⟩ := ih k rest1 t2 r' hk1
          exact ⟨rest, by simp [hs1, hs], ⟨t1, t2, rfl, hall, hp⟩, hk⟩
      | plus =>
          cases s with
          | nil => simp [matchPieces] at h
          | cons c cs =>
              by_cases hc : a.accepts c = true
              · simp only [matchPieces, hc, if_true, Option.map_eq_some'] at h
                obtain ⟨⟨t1, t2, r'⟩, hm, heq⟩ := h
                cases heq
                obtain ⟨rest1, hs1, hall, hk1⟩ := matchStar_sound a _ cs t1 (t2, r') hm
                obtain ⟨rest, hs, hp, hk⟩ := ih k rest1 t2 r' hk1
                exact ⟨rest, by simp [hs1, hs], ⟨c, t1, t2, rfl, hc, hall, hp⟩, hk⟩
              · simp [matchPieces, hc] at h
      | opt =>
          have skip : ∀ s', matchPieces ps k s' = some (t, r) →
              ∃ rest, s' = t ++ rest ∧ PiecesMatch (⟨a, .opt⟩ :: ps) t ∧ k rest = some r := by
            intro s' h'
            obtain ⟨rest, hs, hp, hk⟩ := ih k s' t r h'
            exact ⟨rest, hs, Or.inl hp, hk⟩
          cases s with
          | nil =>
              simp only [matchPieces] at h
              exact skip [] h
          | cons c cs =>
              by_cases hc : a.accepts c = true
              · simp only [matchPieces, hc, if_true] at h
                cases hm : matchPieces ps k cs with
                | none =>
                    rw [hm] at h
                    exact skip _ h
                | some tr =>
                    obtain ⟨t', r'⟩ := tr
                    rw [hm] at h
                    simp only [Option.some.injEq, Prod.mk.injEq] at h
                    obtain ⟨ht, hr⟩ := h
                    subst ht; subst hr
                    obtain ⟨rest, hs, hp, hk⟩ := ih k cs t' r' hm
                    exact ⟨rest, by simp [hs], Or.inr ⟨c, t', rfl, hc, hp⟩, hk⟩
              · simp only [matchPieces, hc] at h
                exact skip _ h

theorem matchGroups_sound (re : Regexp) :
    ∀ (s : List Char) (texts : List (List Char)), matchGroups re s = some texts →
      (∃ rest, s = texts.flatten ++ rest) ∧
        List.Forall₂ (fun g t => PiecesMatch g.pieces t) re texts := by
  induction re with
  | nil =>
      intro s texts h
      simp only [matchGroups, Option.some.injEq] at h
      subst h
      exact ⟨⟨s, by simp⟩, List.Forall₂.nil⟩
  | cons g gs ih =>
      intro s texts h
      simp only [matchGroups, Option.map_eq_some'] at h
      obtain ⟨⟨t, ts⟩, hm, heq⟩ := h
      subst heq
      obtain ⟨rest1, hs1, hp, hk⟩ := matchPieces_sound g.pieces _ s t ts hm
      obtain ⟨⟨rest, hs⟩, hall⟩ := ih rest1 ts hk
      exact ⟨⟨rest, by simp [hs1, hs]⟩, List.Forall₂.cons hp hall⟩

theorem findFirst_sound (re : Regexp) :
    ∀ (s : List Char) (m : List String) (rest : List Char), findFirst re s = some (m, rest) →
      ∃ pre texts post, s = pre ++ (texts.flatten ++ post) ∧ m = submatches re texts ∧
        List.Forall₂ (fun g t => PiecesMatch g.pieces t) re texts := by
  intro s
  induction s with
  | nil =>
      intro m rest h
      simp only [findFirst, Option.map_eq_some'] at h
      obtain ⟨texts, hm, heq⟩ := h
      cases heq
      obtain ⟨⟨post, hs⟩, hall⟩ := matchGroups_sound re [] texts hm
      exact ⟨[], texts, post, by simpa using hs, rfl, hall⟩
  | cons c cs ih =>
      intro m rest h
      unfold findFirst at h
      cases hm : matchGroups re (c :: cs) with
      | some texts =>
          rw [hm] at h
          simp only [Option.some.injEq, Prod.mk.injEq] at h
          obtain ⟨⟨post, hs⟩, hall⟩ := matchGroups_sound re (c :: cs) texts hm
          exact ⟨[], texts, post, by simpa using hs, h.1.symm, hall⟩
      | none =>
          rw [hm] at h
          obtain ⟨pre, texts, post, hs, hsub, hall⟩ := ih m rest h
          exact ⟨c :: pre, texts, post, by simp [hs], hsub, hall⟩

theorem findFirst_of_matchGroups (re : Regexp) (s : List Char) (texts : List (List Char))
    (h : matchGroups re s = some texts) :
    findFirst re s = some (submatches re texts, s.drop texts.flatten.length) := by
  cases s with
  | nil => simp [findFirst, h]
  | cons c cs => simp [findFirst, h]

theorem matchStar_isSome {R : Type} (a : Atom) (k : List Char → Option R)
    (hk : ∀ s, (k s).isSome = true) : ∀ s, (matchStar a k s).isSome = true := by
  intro s
  induction s with
  | nil => simp [matchStar, hk]
  | cons c cs ih =>
      unfold matchStar
      split
      · cases hm : matchStar a k cs with
        | none => simp [hm] at ih
        | some tr => simp
      · simp [hk]

theorem matchPieces_isSome {R : Type} (ps : List Piece)
    (hps : ∀ p ∈ ps, p.quant = .star ∨ p.quant = .opt) :
    ∀ (k : List Char → Option R), (∀ s, (k s).isSome = true) →
      ∀ s, (matchPieces ps k s).isSome = true := by
  induction ps with
  | nil => intro k hk s; simp [matchPieces, hk]
  | cons p ps ih =>
      intro k hk s
      have ih' := ih (fun q hq => hps q (by simp [hq])) k hk
      obtain ⟨a, q⟩ := p
      have hq := hps ⟨a, q⟩ (by simp)
      rcases hq with hq | hq
      · simp only at hq
        subst hq
        simp only [matchPieces, Option.isSome_map']
        exact matchStar_isSome a _ ih' s
      · simp only at hq
        subst hq
        cases s with
        | nil => simpa [matchPieces] using ih' []
        | cons c cs =>
            simp only [matchPieces]
            split
            · cases hm : matchPieces ps k cs with
              | none => simpa using ih' (c :: cs)
              | some tr => simp
            · exact ih' _

theorem matchGroups_isSome (re : Regexp)
    (hre : ∀ g ∈ re, ∀ p ∈ g.pieces, p.quant = .star ∨ p.quant = .opt) :
    ∀ s, (matchGroups re s).isSome = true := by
  induction re with
  | nil => intro s; simp [matchGroups]
  | cons g gs ih =>
      intro s
      simp only [matchGroups, Option.isSome_map']
      exact matchPieces_isSome g.pieces (hre g (by simp)) _
        (ih (fun g' hg' => hre g' (by simp [hg']))) s

end regexp

namespace aws

open regexp

theorem ParseImage_of_findFirst_none (image : String)
    (h : findFirst registryPartRe image.data = none) : ParseImage image = ("", "", false) := by
  simp [ParseImage, FindAllStringSubmatch, findAllAux, h]

theorem ParseImage_of_findFirst_some (image : String) (m : List String) (rest : List Char)
    (h : findFirst registryPartRe image.data = some (m, rest)) :
    ParseImage image = (m.getD 1 "", m.getD 2 "", true) := by
  simp [ParseImage, FindAllStringSubmatch, findAllAux, h]

theorem accepts_digit (c : Char) (h : c.isDigit = true) :
    (Atom.cls false [('0', '9'), ('+', '+')]).accepts c = true := by
  simp only [Char.isDigit, Bool.and_eq_true, decide_eq_true_eq] at h
  obtain ⟨h1, h2⟩ := h
  have h1' : 48 ≤ c.toNat := h1
  have h2' : c.toNat ≤ 57 := h2
  have e0 : '0'.toNat = 48 := by decide
  have e9 : '9'.toNat = 57 := by decide
  simp [Atom.accepts, e0, e9, h1', h2']

theorem char_eq_of_toNat (c d : Char) (h : c.toNat = d.toNat) : c = d := by
  rw [← Char.ofNat_toNat c, ← Char.ofNat_toNat d, h]

theorem accepts_notSlashDot (c : Char) :
    (Atom.cls true [('/', '/'), ('.', '.')]).accepts c = true ↔ c ≠ '/' ∧ c ≠ '.' := by
  have k1 : c.toNat = 47 ↔ c = '/' :=
    ⟨fun h => char_eq_of_toNat c '/' h, fun h => by rw [h]; rfl⟩
  have k2 : c.toNat = 46 ↔ c = '.' :=
    ⟨fun h => char_eq_of_toNat c '.' h, fun h => by rw [h]; rfl⟩
  simp [Atom.accepts, k1, k2]

theorem accepts_notColon (c : Char) :
    (Atom.cls true [(':', ':')]).accepts c = true ↔ c ≠ ':' := by
  have k1 : c.toNat = 58 ↔ c = ':' :=
    ⟨fun h => char_eq_of_toNat c ':' h, fun h => by rw [h]; rfl⟩
  simp [Atom.accepts, k1]

/-- The last four groups `/([^:]+):?(.*)` match whenever a slash and a
character other than a colon come next. -/
theorem tail_matches (r0 : Char) (rest : List Char) (hr0 : r0 ≠ ':') :
    (matchGroups (registryPartRe.drop 5) ('/' :: r0 :: rest)).isSome = true := by
  have h8 : ∀ s, (matchGroups (registryPartRe.drop 7) s).isSome = true := by
    apply matchGroups_isSome
    simp [registryPartRe]
  have hacc := (accepts_notColon r0).mpr hr0
  have h7 : ∀ s, (matchPieces ([] : List Piece)
      (fun s' => matchGroups (registryPartRe.drop 7) s') s).isSome = true := by
    intro s
    simp only [matchPieces, Option.isSome_map']
    exact h8 s
  have hslash : (Atom.lit '/').accepts '/' = true := by decide
  simp only [registryPartRe, List.drop_succ_cons, List.drop_zero] at h7 ⊢
  simp only [matchGroups, matchPieces, hslash, hacc, if_true, Option.isSome_map'] at h7 ⊢
  apply matchStar_isSome
  intro s
  simpa using h7 s

theorem matchGroups_star_cons (cap : Bool) (a : Atom) (gs : Regexp)
    (xs rest : List Char) (tl : List (List Char)) (hxs : ∀ x ∈ xs, a.accepts x = true)
    (hrest : ∀ c cs, rest = c :: cs → a.accepts c = false)
    (hk : matchGroups gs rest = some tl) :
    matchGroups (⟨cap, [⟨a, .star⟩]⟩ :: gs) (xs ++ rest) = some (xs :: tl) := by
  simp only [matchGroups, matchPieces]
  rw [matchStar_greedy a _ xs rest ([], tl) hxs hrest (by simp [matchPieces, hk])]
  simp

/-- The anchored match of the pattern on a well-formed ECR image. -/
theorem matchGroups_wellFormed (acct region cn rest : List Char) (r0 : Char)
    (hacct : ∀ c ∈ acct, c.isDigit = true) (hregion : ∀ c ∈ region, c ≠ '/' ∧ c ≠ '.')
    (hcn : cn = [] ∨ cn = ['.', 'c', 'n']) (hr0 : r0 ≠ ':') :
    ∃ tl, matchGroups registryPartRe
      (acct ++ ('.' :: 'd' :: 'k' :: 'r' :: '.' :: 'e' :: 'c' :: 'r' :: '.' ::
        (region ++ ('.' :: 'a' :: 'm' :: 'a' :: 'z' :: 'o' :: 'n' :: 'a' :: 'w' :: 's' :: '.' ::
          'c' :: 'o' :: 'm' :: (cn ++ '/' :: r0 :: rest))))) =
      some (acct :: ['.', 'd', 'k', 'r', '.', 'e', 'c', 'r', '.'] :: region :: tl) := by
  obtain ⟨tl5, h5⟩ := Option.isSome_iff_exists.mp (tail_matches r0 rest hr0)
  have hre : registryPartRe =
      ⟨true, [⟨.cls false [('0', '9'), ('+', '+')], .star⟩]⟩ ::
      ⟨false, [⟨.dot, .one⟩, ⟨.lit 'd', .one⟩, ⟨.lit 'k', .one⟩, ⟨.lit 'r', .one⟩, ⟨.dot, .one⟩,
        ⟨.lit 'e', .one⟩, ⟨.lit 'c', .one⟩, ⟨.lit 'r', .one⟩, ⟨.dot, .one⟩]⟩ ::
      ⟨true, [⟨.cls true [('/', '/'), ('.', '.')], .star⟩]⟩ ::
      registryPartRe.drop 3 := rfl
  have hre3 : registryPartRe.drop 3 =
      ⟨false, [⟨.lit '.', .one⟩]⟩ ::
      ⟨true, [⟨.lit 'a', .one⟩, ⟨.lit 'm', .one⟩, ⟨.lit 'a', .one⟩, ⟨.lit 'z', .one⟩,
        ⟨.lit 'o', .one⟩, ⟨.lit 'n', .one⟩, ⟨.lit 'a', .one⟩, ⟨.lit 'w', .one⟩, ⟨.lit 's', .one⟩,
        ⟨.lit '.', .one⟩, ⟨.lit 'c', .one⟩, ⟨.lit 'o', .one⟩, ⟨.lit 'm', .one⟩,
        ⟨.cls false [('.', '.'), ('c', 'c'), ('n', 'n')], .star⟩]⟩ ::
      registryPartRe.drop 5 := rfl
  generalize registryPartRe.drop 5 = gs5 at h5 hre3
  have h3 : ∃ tl, matchGroups (registryPartRe.drop 3)
      ('.' :: 'a' :: 'm' :: 'a' :: 'z' :: 'o' :: 'n' :: 'a' :: 'w' :: 's' :: '.' ::
          'c' :: 'o' :: 'm' :: (cn ++ '/' :: r0 :: rest)) = some tl := by
    rw [hre3]
    rcases hcn with rfl | rfl <;>
      simp [matchGroups, matchPieces, matchStar, Atom.accepts, h5]
  obtain ⟨tl3, h3⟩ := h3
  generalize registryPartRe.drop 3 = gs3 at h3 hre
  rw [hre]
  refine ⟨tl3, ?_⟩
  apply matchGroups_star_cons
  · intro x hx
    exact accepts_digit x (hacct x hx)
  · intro c cs h
    cases h
    decide
  · rw [matchGroups]
    have h2 : matchGroups (⟨true, [⟨.cls true [('/', '/'), ('.', '.')], .star⟩]⟩ :: gs3)
        (region ++ ('.' :: 'a' :: 'm' :: 'a' :: 'z' :: 'o' :: 'n' :: 'a' :: 'w' :: 's' :: '.' ::
          'c' :: 'o' :: 'm' :: (cn ++ '/' :: r0 :: rest))) = some (region :: tl3) := by
      apply matchGroups_star_cons
      · intro x hx
        exact (accepts_notSlashDot x).mpr (hregion x hx)
      · intro c cs h
        cases h
        decide
      · exact h3
    simp [matchPieces, Atom.accepts, h2]

/-- Whatever the pattern matches contains the literal text `.amazonaws.com`. -/
theorem amazonaws_of_match (texts : List (List Char))
    (hall : List.Forall₂ (fun g t => PiecesMatch g.pieces t) registryPartRe texts) :
    ∃ a b, texts.flatten = a ++ (".amazonaws.com".data ++ b) := by
  simp only [registryPartRe] at hall
  cases hall with
  | @cons _ t1 _ _ h1 hall =>
  cases hall with
  | @cons _ t2 _ _ h2 hall =>
  cases hall with
  | @cons _ t3 _ _ h3 hall =>
  cases hall with
  | @cons _ t4 _ _ h4 hall =>
  cases hall with
  | @cons _ t5 _ tl h5 hall =>
  simp only [PiecesMatch, Atom.accepts, beq_iff_eq] at h4 h5
  obtain ⟨c, t', rfl, rfl, rfl⟩ := h4
  obtain ⟨c1, _, rfl, rfl, c2, _, rfl, rfl, c3, _, rfl, rfl, c4, _, rfl, rfl, c5, _, rfl, rfl,
    c6, _, rfl, rfl, c7, _, rfl, rfl, c8, _, rfl, rfl, c9, _, rfl, rfl, c10, _, rfl, rfl,
    c11, _, rfl, rfl, c12, _, rfl, rfl, c13, t5', rfl, rfl, _⟩ := h5
  exact ⟨t1 ++ (t2 ++ t3), t5' ++ tl.flatten, by simp⟩

end aws

/-! ## Claims on `ParseImage` -/

namespace aws

open regexp

/-- C1: for an account id of decimal digits, a region without `/` and `.`, a
non-empty repository path without `:` and an optional tag, `ParseImage` on
`acct.dkr.ecr.region.amazonaws.com/repo[:tag]`, and likewise on the host
ending in `.amazonaws.com.cn`, returns exactly `(acct, region, true)`. -/
theorem ParseImage_wellFormed (acct region repo : String) (tag : Option String) (cn : Bool)
    (hacct : acct ≠ "" ∧ ∀ c ∈ acct.data, c.isDigit = true)
    (hregion : region ≠ "" ∧ ∀ c ∈ region.data, c ≠ '/' ∧ c ≠ '.')
    (hrepo : repo ≠ "" ∧ ∀ c ∈ repo.data, c ≠ ':') :
    ParseImage (acct ++ ".dkr.ecr." ++ region ++
        (if cn then ".amazonaws.com.cn" else ".amazonaws.com") ++ "/" ++ repo ++
        tag.elim "" (fun t => ":" ++ t)) = (acct, region, true) := by
  generalize tag.elim "" (fun t => ":" ++ t) = tagPart
  obtain ⟨repoData⟩ := repo
  cases repoData with
  | nil => exact absurd rfl hrepo.1
  | cons r0 repo' =>
  have hr0 : r0 ≠ ':' := hrepo.2 r0 (by simp)
  obtain ⟨tl, hm⟩ := matchGroups_wellFormed acct.data region.data
    (if cn then ['.', 'c', 'n'] else []) (repo' ++ tagPart.data) r0 hacct.2 hregion.2
    (by cases cn <;> simp) hr0
  have e1 : ".dkr.ecr.".data = ['.', 'd', 'k', 'r', '.', 'e', 'c', 'r', '.'] := rfl
  have e2 : (if cn then ".amazonaws.com.cn" else ".amazonaws.com").data =
      '.' :: 'a' :: 'm' :: 'a' :: 'z' :: 'o' :: 'n' :: 'a' :: 'w' :: 's' :: '.' ::
          'c' :: 'o' :: 'm' :: (if cn then ['.', 'c', 'n'] else []) := by
    cases cn <;> rfl
  have e3 : "/".data = ['/'] := rfl
  have hdata : (acct ++ ".dkr.ecr." ++ region ++
        (if cn then ".amazonaws.com.cn" else ".amazonaws.com") ++ "/" ++ String.mk (r0 :: repo') ++
        tagPart).data =
      acct.data ++ ('.' :: 'd' :: 'k' :: 'r' :: '.' :: 'e' :: 'c' :: 'r' :: '.' ::
        (region.data ++ ('.' :: 'a' :: 'm' :: 'a' :: 'z' :: 'o' :: 'n' :: 'a' :: 'w' :: 's' ::
          '.' :: 'c' :: 'o' :: 'm' :: ((if cn then ['.', 'c', 'n'] else []) ++ '/' :: r0 ::
            (repo' ++ tagPart.data))))) := by
    simp only [String.data_append, e1, e2, e3, List.append_assoc, List.cons_append,
      List.nil_append]
  rw [← hdata] at hm
  rw [ParseImage_of_findFirst_some _ _ _ (findFirst_of_matchGroups _ _ _ hm)]
  simp [submatches, registryPartRe]

/-- Witness of C1: the image `123456789012.dkr.ecr.us-east-1.amazonaws.com/foo`. -/
theorem ParseImage_wellFormed_witness :
    ParseImage "123456789012.dkr.ecr.us-east-1.amazonaws.com/foo" =
      ("123456789012", "us-east-1", true) :=
  ParseImage_wellFormed "123456789012" "us-east-1" "foo" none false
    ⟨by decide, by decide⟩ ⟨by decide, by decide⟩ ⟨by decide, by decide⟩

/-- C4: on an image that does not contain `.amazonaws.com`, `ParseImage`
returns `("", "", false)`; the absence of a match is reported by the boolean
alone. -/
theorem ParseImage_without_amazonaws (image : String)
    (h : ¬ ".amazonaws.com".data <:+: image.data) : ParseImage image = ("", "", false) := by
  cases hf : findFirst registryPartRe image.data with
  | none => exact ParseImage_of_findFirst_none image hf
  | some mr =>
      obtain ⟨m, rest⟩ := mr
      obtain ⟨pre, texts, post, hs, -, hall⟩ := findFirst_sound _ _ _ _ hf
      obtain ⟨a, b, hab⟩ := amazonaws_of_match texts hall
      exact absurd ⟨pre ++ a, b ++ post, by rw [hs, hab]; simp⟩ h

/-- Witness of C4: images of other registries, the empty string and a
malformed image. -/
theorem ParseImage_without_amazonaws_witness :
    ParseImage "docker.io/library/busybox" = ("", "", false) ∧
      ParseImage "foo.azurecr.io/bar" = ("", "", false) ∧
      ParseImage "" = ("", "", false) ∧
      ParseImage ":/@@//.dkr.ecr..amazonaws" = ("", "", false) :=
  ⟨ParseImage_without_amazonaws _ (by decide), ParseImage_without_amazonaws _ (by decide),
    ParseImage_without_amazonaws _ (by decide), ParseImage_without_amazonaws _ (by decide)⟩

end aws

namespace aws

/-- C2, the code at the failing input: an image hosted on `example.com` whose
repository path looks like an ECR host is reported as ECR, and the classifier
takes it for an AWS image whatever the GCP host predicate is. -/
theorem ParseImage_foreign_host :
    ParseImage "example.com/123456789012.dkr.ecr.us-east-1.amazonaws.com/foo" =
      ("123456789012", "us-east-1", true) ∧
    ∀ g : gcp.Package,
      login.ImageRegistryProvider g
        "example.com/123456789012.dkr.ecr.us-east-1.amazonaws.com/foo"
        { RegistryStr := "example.com" } = registry.ProviderAWS := by
  have h : ParseImage "example.com/123456789012.dkr.ecr.us-east-1.amazonaws.com/foo" =
      ("123456789012", "us-east-1", true) := by decide
  refine ⟨h, fun g => ?_⟩
  simp [login.ImageRegistryProvider, h]

/-- C3, the code at failing inputs: the pattern accepts an empty account id
and an empty region with arbitrary characters in place of the dots, an
account id with `+` in it, and a host that goes on after `.amazonaws.com`
with any run of the characters `.`, `c` and `n`. -/
theorem ParseImage_loose_pattern :
    ParseImage "xdkrxecrx.amazonaws.com/foo" = ("", "", true) ∧
    ParseImage "1+1.dkr.ecr.us-east-1.amazonaws.com/foo" = ("1+1", "us-east-1", true) ∧
    ParseImage "123456789012.dkr.ecr.us-east-1.amazonaws.comnn..c/foo" =
      ("123456789012", "us-east-1", true) := by
  refine ⟨?_, ?_, ?_⟩ <;> decide

end aws

/-! ## Claims on the classification of hosts -/

namespace strings

theorem HasSuffix_iff (s suffix : String) :
    HasSuffix s suffix = true ↔ suffix.data <:+ s.data := by
  simp only [HasSuffix, String.length, ge_iff_le, Bool.and_eq_true, decide_eq_true_eq,
    beq_iff_eq]
  constructor
  · rintro ⟨-, h⟩
    rw [← h]
    exact List.drop_suffix _ _
  · rintro ⟨t, ht⟩
    rw [← ht]
    simp

end strings

namespace azure

/-- C6: `ValidHost` holds exactly for the hosts that end in one of
`.azurecr.io`, `.azurecr.cn`, `.azurecr.de`, `.azurecr.us`; it holds for
`foo.azurecr.io`, `foo.azurecr.cn`, `foo.azurecr.de` and `foo.azurecr.us` and
fails for `gcr.io` and `docker.io`. -/
theorem ValidHost_iff_suffix :
    (∀ host : String, ValidHost host = true ↔
      (".azurecr.io".data <:+ host.data ∨ ".azurecr.cn".data <:+ host.data ∨
        ".azurecr.de".data <:+ host.data ∨ ".azurecr.us".data <:+ host.data)) ∧
    ValidHost "foo.azurecr.io" = true ∧ ValidHost "foo.azurecr.cn" = true ∧
    ValidHost "foo.azurecr.de" = true ∧ ValidHost "foo.azurecr.us" = true ∧
    ValidHost "gcr.io" = false ∧ ValidHost "docker.io" = false := by
  refine ⟨fun host => ?_, by decide, by decide, by decide, by decide, by decide, by decide⟩
  rw [← strings.HasSuffix_iff host ".azurecr.io", ← strings.HasSuffix_iff host ".azurecr.cn",
    ← strings.HasSuffix_iff host ".azurecr.de", ← strings.HasSuffix_iff host ".azurecr.us"]
  simp only [ValidHost, ValidHost.loop]
  cases strings.HasSuffix host ".azurecr.io" <;> cases strings.HasSuffix host ".azurecr.cn" <;>
    cases strings.HasSuffix host ".azurecr.de" <;> cases strings.HasSuffix host ".azurecr.us" <;>
    simp

end azure

namespace login

open registry

/-- C5: `ImageRegistryProvider` is the ordered first-match classification:
AWS when `aws.ParseImage` reports a match, else GCR when `gcp.ValidHost`
holds of the registry host, else Azure when `azure.ValidHost` holds of it,
else Generic. So it answers Azure only for hosts `azure.ValidHost` accepts,
and Generic exactly when none of the three predicates holds. The ECR image
of the specification is AWS; `foo.azurecr.io/bar` is Azure and
`docker.io/library/busybox` is Generic for every GCP predicate that rejects
their hosts. -/
theorem ImageRegistryProvider_first_match :
    (∀ (g : gcp.Package) (image : String) (ref : name.Reference),
      ImageRegistryProvider g image ref =
        (if (aws.ParseImage image).2.2 = true then ProviderAWS
         else if g.ValidHost ref.RegistryStr = true then ProviderGCR
         else if azure.ValidHost ref.RegistryStr = true then ProviderAzure
         else ProviderGeneric) ∧
      (ImageRegistryProvider g image ref = ProviderAzure →
        azure.ValidHost ref.RegistryStr = true) ∧
      (ImageRegistryProvider g image ref = ProviderGeneric ↔
        (aws.ParseImage image).2.2 = false ∧ g.ValidHost ref.RegistryStr = false ∧
          azure.ValidHost ref.RegistryStr = false)) ∧
    (∀ (g : gcp.Package) (ref : name.Reference),
      ImageRegistryProvider g "123456789012.dkr.ecr.us-east-1.amazonaws.com/foo" ref =
        ProviderAWS) ∧
    (∀ g : gcp.Package, g.ValidHost "foo.azurecr.io" = false →
      ImageRegistryProvider g "foo.azurecr.io/bar" { RegistryStr := "foo.azurecr.io" } =
        ProviderAzure) ∧
    (∀ g : gcp.Package, g.ValidHost "index.docker.io" = false →
      ImageRegistryProvider g "docker.io/library/busybox" { RegistryStr := "index.docker.io" } =
        ProviderGeneric) := by
  have main : ∀ (g : gcp.Package) (image : String) (ref : name.Reference),
      ImageRegistryProvider g image ref =
        (if (aws.ParseImage image).2.2 = true then ProviderAWS
         else if g.ValidHost ref.RegistryStr = true then ProviderGCR
         else if azure.ValidHost ref.RegistryStr = true then ProviderAzure
         else ProviderGeneric) := by
    intro g image ref
    rfl
  have e1 : aws.ParseImage "123456789012.dkr.ecr.us-east-1.amazonaws.com/foo" =
      ("123456789012", "us-east-1", true) := by decide
  have e2 : aws.ParseImage "foo.azurecr.io/bar" = ("", "", false) := by decide
  have e3 : aws.ParseImage "docker.io/library/busybox" = ("", "", false) := by decide
  have a2 : azure.ValidHost "foo.azurecr.io" = true := by decide
  have a3 : azure.ValidHost "index.docker.io" = false := by decide
  refine ⟨fun g image ref => ⟨main g image ref, ?_, ?_⟩, ?_, ?_, ?_⟩
  · rw [main]
    cases (aws.ParseImage image).2.2 <;> cases g.ValidHost ref.RegistryStr <;>
      cases azure.ValidHost ref.RegistryStr <;> simp
  · rw [main]
    cases (aws.ParseImage image).2.2 <;> cases g.ValidHost ref.RegistryStr <;>
      cases azure.ValidHost ref.RegistryStr <;> simp
  · intro g ref
    rw [main, e1]
    rfl
  · intro g hg
    rw [main, e2]
    simp [hg, a2]
  · intro g hg
    rw [main, e3]
    simp [hg, a3]

end login

/-! ## Base64: decoding undoes encoding -/

namespace base64

theorem decodeMap_encodeByte : ∀ v, v < 64 → decodeMap (encodeByte v) = some v := by
  decide

theorem decodeMap_padding : decodeMap StdPadding = none := by decide

theorem ofNat_eq (n : Nat) (a : Byte) (h : n % 256 = a.val) : (Fin.ofNat n : Byte) = a :=
  Fin.ext h

theorem afterPadding_nil (out : GoString) (si : Nat) : afterPadding out [] si = .ok out := rfl

theorem decodeLoop_quantum (len si : Nat) (a b c : Byte) (rest : GoString) :
    decodeLoop len 0 0
      (encodeByte (a.val / 4) :: encodeByte (a.val % 4 * 16 + b.val / 16) ::
        encodeByte (b.val % 16 * 4 + c.val / 64) :: encodeByte (c.val % 64) :: rest) si =
      (decodeLoop len 0 0 rest (si + 1 + 1 + 1 + 1)).map fun out => a :: b :: c :: out := by
  have ha := a.isLt
  have hb := b.isLt
  have hc := c.isLt
  have e0 := decodeMap_encodeByte (a.val / 4) (by omega)
  have e1 := decodeMap_encodeByte (a.val % 4 * 16 + b.val / 16) (by omega)
  have e2 := decodeMap_encodeByte (b.val % 16 * 4 + c.val / 64) (by omega)
  have e3 := decodeMap_encodeByte (c.val % 64) (by omega)
  simp only [decodeLoop, e0, e1, e2, e3]
  simp only [Nat.zero_mul, Nat.zero_add, Nat.reduceEqDiff, if_false, if_true]
  congr 1
  funext out
  rw [ofNat_eq _ a (by omega), ofNat_eq _ b (by omega), ofNat_eq _ c (by omega)]

theorem decodeLoop_encode (len : Nat) (s : GoString) :
    ∀ si, decodeLoop len 0 0 (EncodeToString s) si = .ok s := by
  induction s using EncodeToString.induct with
  | case1 => intro si; simp [EncodeToString, decodeLoop]
  | case2 a =>
      intro si
      have ha := a.isLt
      have e0 := decodeMap_encodeByte (a.val / 4) (by omega)
      have e1 := decodeMap_encodeByte (a.val % 4 * 16) (by omega)
      simp only [EncodeToString, decodeLoop, e0, e1, decodeMap_padding]
      simp [StdPadding, skipNewlines, afterPadding_nil]
      apply ofNat_eq
      omega
  | case3 a b =>
      intro si
      have ha := a.isLt
      have hb := b.isLt
      have e0 := decodeMap_encodeByte (a.val / 4) (by omega)
      have e1 := decodeMap_encodeByte (a.val % 4 * 16 + b.val / 16) (by omega)
      have e2 := decodeMap_encodeByte (b.val % 16 * 4) (by omega)
      simp only [EncodeToString, decodeLoop, e0, e1, e2, decodeMap_padding]
      simp [StdPadding, skipNewlines, afterPadding_nil]
      constructor <;> apply ofNat_eq <;> omega
  | case4 a b c rest ih =>
      intro si
      rw [EncodeToString, decodeLoop_quantum, ih]
      rfl

/-- Decoding undoes encoding. -/
theorem DecodeString_EncodeToString (s : GoString) :
    DecodeString (EncodeToString s) = .ok s :=
  decodeLoop_encode _ s 0

end base64

/-! ## Splitting at a separator -/

namespace strings

theorem Split_ne_nil (s : GoString) (sep : Byte) : Split s sep ≠ [] := by
  induction s with
  | nil => simp [Split]
  | cons b bs ih =>
      unfold Split
      split
      · simp
      · cases h : Split bs sep with
        | nil => simp
        | cons piece pieces => simp

theorem Split_length (s : GoString) (sep : Byte) :
    (Split s sep).length = s.count sep + 1 := by
  induction s with
  | nil => simp [Split]
  | cons b bs ih =>
      unfold Split
      by_cases hb : b = sep
      · subst hb
        simp [ih]
      · rw [if_neg hb]
        cases h : Split bs sep with
        | nil => exact absurd h (Split_ne_nil bs sep)
        | cons piece pieces =>
            rw [h] at ih
            simp only [List.length_cons] at ih ⊢
            rw [ih, List.count_cons_of_ne (Ne.symm hb)]

theorem Split_of_not_mem (s : GoString) (sep : Byte) (h : sep ∉ s) : Split s sep = [s] := by
  induction s with
  | nil => simp [Split]
  | cons b bs ih =>
      have hb : b ≠ sep := fun e => h (by simp [e])
      have hbs : sep ∉ bs := fun e => h (by simp [e])
      unfold Split
      rw [if_neg hb, ih hbs]

theorem Split_append (u rest : GoString) (sep : Byte) (h : sep ∉ u) :
    Split (u ++ sep :: rest) sep = u :: Split rest sep := by
  induction u with
  | nil => simp [Split]
  | cons b bs ih =>
      have hb : b ≠ sep := fun e => h (by simp [e])
      have hbs : sep ∉ bs := fun e => h (by simp [e])
      rw [List.cons_append, Split, if_neg hb, ih hbs]

end strings

/-! ## Claims on the ECR client -/

namespace aws

/-- C7: when the first authorization-data entry of the ECR response carries
the token `base64(u ++ ":" ++ p)` for a user name `u` and a password `p`
without `:`, `getLoginAuth` succeeds with `AuthConfig{Username: u, Password:
p}`, and `u ++ ":" ++ p` is the decoded token. -/
theorem getLoginAuth_decodes (sdk : SDK) (c : Client) (accountId awsEcrRegion : String)
    (u p : GoString) (others : List ecr.AuthorizationData)
    (hu : (58 : Byte) ∉ u) (hp : (58 : Byte) ∉ p)
    (hsession : sdk.NewSession (c.Config.WithRegion awsEcrRegion) = none)
    (hresponse : sdk.GetAuthorizationToken (c.Config.WithRegion awsEcrRegion) [accountId] =
      .ok ⟨⟨some (base64.EncodeToString (u ++ 58 :: p))⟩ :: others⟩) :
    (c.getLoginAuth sdk accountId awsEcrRegion).1 =
        .returned ({ Username := u, Password := p }, none) ∧
      base64.DecodeString (base64.EncodeToString (u ++ 58 :: p)) = .ok (u ++ 58 :: p) := by
  have hdec := base64.DecodeString_EncodeToString (u ++ 58 :: p)
  have hsplit : strings.Split (u ++ 58 :: p) 58 = [u, p] := by
    rw [strings.Split_append u p 58 hu, strings.Split_of_not_mem p 58 hp]
  refine ⟨?_, hdec⟩
  simp [Client.getLoginAuth, hsession, hresponse, hdec, hsplit]

/-- Witness of C7: the token `dXNlcjpwYXNz`, which decodes to `user:pass`. -/
theorem getLoginAuth_decodes_witness :
    base64.EncodeToString (GoString.ofASCII "user" ++ 58 :: GoString.ofASCII "pass") =
        GoString.ofASCII "dXNlcjpwYXNz" ∧
      (NewClient.getLoginAuth
          { NewSession := fun _ => none,
            GetAuthorizationToken := fun _ _ =>
              .ok ⟨[⟨some (GoString.ofASCII "dXNlcjpwYXNz")⟩]⟩ }
          "123456789012" "us-east-1").1 =
        .returned
          ({ Username := GoString.ofASCII "user", Password := GoString.ofASCII "pass" }, none) :=
  ⟨by decide,
    (getLoginAuth_decodes
      { NewSession := fun _ => none,
        GetAuthorizationToken := fun _ _ => .ok ⟨[⟨some (GoString.ofASCII "dXNlcjpwYXNz")⟩]⟩ }
      NewClient "123456789012" "us-east-1" (GoString.ofASCII "user") (GoString.ofASCII "pass") []
      (by decide) (by decide) rfl (by decide)).1⟩

end aws

namespace aws

/-- C8: when the base64-decoded token holds `k` colons with `k ≠ 1`,
`getLoginAuth` returns the zero `AuthConfig` and the error "invalid
authorization token, expected to be of length 2, have `k + 1`"; it succeeds
only when the decoded token has exactly one colon, that is two segments. -/
theorem getLoginAuth_invalid_token (sdk : SDK) (c : Client) (accountId awsEcrRegion : String)
    (encoded token : GoString) (others : List ecr.AuthorizationData) (k : Nat)
    (hsession : sdk.NewSession (c.Config.WithRegion awsEcrRegion) = none)
    (hresponse : sdk.GetAuthorizationToken (c.Config.WithRegion awsEcrRegion) [accountId] =
      .ok ⟨⟨some encoded⟩ :: others⟩)
    (hdecode : base64.DecodeString encoded = .ok token) (hk : token.count 58 = k) :
    (k ≠ 1 → (c.getLoginAuth sdk accountId awsEcrRegion).1 =
      .returned ({}, some (.New
        ("invalid authorization token, expected to be of length 2, have " ++
          toString (k + 1))))) ∧
    ((∃ authConfig, (c.getLoginAuth sdk accountId awsEcrRegion).1 =
        .returned (authConfig, none)) →
      k = 1 ∧ (strings.Split token 58).length = 2) := by
  have hlen : (strings.Split token 58).length = k + 1 := by
    rw [strings.Split_length, hk]
  by_cases h1 : k = 1
  · subst h1
    exact ⟨fun h => absurd rfl h, fun _ => ⟨rfl, hlen⟩⟩
  · have hne : ¬ k + 1 = 2 := by omega
    have hres : (c.getLoginAuth sdk accountId awsEcrRegion).1 =
        .returned ({}, some (.New
          ("invalid authorization token, expected to be of length 2, have " ++
            toString (k + 1)))) := by
      simp [Client.getLoginAuth, hsession, hresponse, hdecode, hlen, hne]
    refine ⟨fun _ => hres, ?_⟩
    rintro ⟨authConfig, h⟩
    rw [hres] at h
    simp at h

/-- Witness of C8: the token `YTpiOmM=`, which decodes to `a:b:c`. -/
theorem getLoginAuth_invalid_token_witness :
    (NewClient.getLoginAuth
        { NewSession := fun _ => none,
          GetAuthorizationToken := fun _ _ => .ok ⟨[⟨some (GoString.ofASCII "YTpiOmM=")⟩]⟩ }
        "123456789012" "us-east-1").1 =
      .returned ({}, some (.New
        "invalid authorization token, expected to be of length 2, have 3")) :=
  (getLoginAuth_invalid_token
    { NewSession := fun _ => none,
      GetAuthorizationToken := fun _ _ => .ok ⟨[⟨some (GoString.ofASCII "YTpiOmM=")⟩]⟩ }
    NewClient "123456789012" "us-east-1" (GoString.ofASCII "YTpiOmM=")
    (GoString.ofASCII "a:b:c") [] 2 rfl rfl (by decide) (by decide)).1 (by decide)

/-- C9: when the ECR request succeeds with an empty authorization-data list,
`getLoginAuth` returns the zero `AuthConfig` and the error "no authorization
data"; when the first entry has no token, the zero `AuthConfig` and the error
"no authorization token". In both cases it returns: it does not panic on an
index out of range or on a nil token. -/
theorem getLoginAuth_validates_response (sdk : SDK) (c : Client)
    (accountId awsEcrRegion : String)
    (hsession : sdk.NewSession (c.Config.WithRegion awsEcrRegion) = none) :
    (sdk.GetAuthorizationToken (c.Config.WithRegion awsEcrRegion) [accountId] = .ok ⟨[]⟩ →
      (c.getLoginAuth sdk accountId awsEcrRegion).1 =
        .returned ({}, some (.New "no authorization data"))) ∧
    (∀ others, sdk.GetAuthorizationToken (c.Config.WithRegion awsEcrRegion) [accountId] =
        .ok ⟨⟨none⟩ :: others⟩ →
      (c.getLoginAuth sdk accountId awsEcrRegion).1 =
        .returned ({}, some (.New "no authorization token"))) := by
  constructor
  · intro hresponse
    simp [Client.getLoginAuth, hsession, hresponse]
  · intro others hresponse
    simp [Client.getLoginAuth, hsession, hresponse]

/-- Witness of C9: a response without authorization data, and one whose only
entry has no token. -/
theorem getLoginAuth_validates_response_witness :
    (NewClient.getLoginAuth
        { NewSession := fun _ => none, GetAuthorizationToken := fun _ _ => .ok ⟨[]⟩ }
        "123456789012" "us-east-1").1 =
      .returned ({}, some (.New "no authorization data")) ∧
    (NewClient.getLoginAuth
        { NewSession := fun _ => none, GetAuthorizationToken := fun _ _ => .ok ⟨[⟨none⟩]⟩ }
        "123456789012" "us-east-1").1 =
      .returned ({}, some (.New "no authorization token")) :=
  ⟨(getLoginAuth_validates_response
      { NewSession := fun _ => none, GetAuthorizationToken := fun _ _ => .ok ⟨[]⟩ }
      NewClient "123456789012" "us-east-1" rfl).1 rfl,
    (getLoginAuth_validates_response
      { NewSession := fun _ => none, GetAuthorizationToken := fun _ _ => .ok ⟨[⟨none⟩]⟩ }
      NewClient "123456789012" "us-east-1" rfl).2 [] rfl⟩

end aws

/-! ## Claims on the manager -/

namespace login

open registry

/-- C10: for an image classified as AWS with `AwsAutoLogin` off, and for an
image classified as Azure with `AzureAutoLogin` off, `Manager.Login` returns
no authenticator and an error that wraps `registry.ErrUnconfiguredProvider`,
leaves the manager as it was, and gives the same result for every backend;
so do the `Login` methods of the two clients when called with autologin off,
whatever the image. -/
theorem Login_disabled_provider (g : gcp.Package) (w : World) (m : Manager g) (image : String)
    (ref : name.Reference) (opts : ProviderOptions)
    (h : (ImageRegistryProvider g image ref = ProviderAWS ∧ opts.AwsAutoLogin = false) ∨
      (ImageRegistryProvider g image ref = ProviderAzure ∧ opts.AzureAutoLogin = false)) :
    (∃ err log, m.Login w image ref opts = (.returned (none, some err), log, m) ∧
        errors.Is err ErrUnconfiguredProvider = true) ∧
      (∀ w' : World, m.Login w' image ref opts = m.Login w image ref opts) ∧
      (∀ (sdk : aws.SDK) (c : aws.Client), ∃ err log,
        c.Login sdk false image = (.returned (none, some err), log, c) ∧
          errors.Is err ErrUnconfiguredProvider = true) ∧
      (∀ (be : azure.Backend) (c : azure.Client), ∃ err log,
        c.Login be false image ref = (.returned (none, some err), log, c) ∧
          errors.Is err ErrUnconfiguredProvider = true) := by
  have haws : ∀ (sdk : aws.SDK) (c : aws.Client),
      c.Login sdk false image =
        (.returned (none, some (.Wrap "ECR authentication failed: " ErrUnconfiguredProvider)),
          ["ECR authentication is not enabled. To enable, set the controller flag --aws-autologin-for-ecr"],
          c) := by
    intro sdk c
    simp [aws.Client.Login]
  have hazure : ∀ (be : azure.Backend) (c : azure.Client),
      c.Login be false image ref =
        (.returned (none, some (.Wrap "ACR authentication failed: " ErrUnconfiguredProvider)),
          ["ACR authentication is not enabled. To enable, set the controller flag --azure-autologin-for-acr"],
          c) := by
    intro be c
    simp [azure.Client.Login]
  have his : ∀ pre : String, errors.Is (.Wrap pre ErrUnconfiguredProvider)
      ErrUnconfiguredProvider = true := by
    intro pre
    simp [errors.Is, ErrUnconfiguredProvider]
  refine ⟨?_, ?_, fun sdk c => ⟨_, _, haws sdk c, his _⟩, fun be c => ⟨_, _, hazure be c, his _⟩⟩
  · rcases h with ⟨hp, hflag⟩ | ⟨hp, hflag⟩
    · have hm : m.Login w image ref opts =
          (.returned (none, some (.Wrap "ECR authentication failed: " ErrUnconfiguredProvider)),
            ["ECR authentication is not enabled. To enable, set the controller flag --aws-autologin-for-ecr"],
            m) := by
        simp [Manager.Login, hp, hflag, haws]
      exact ⟨_, _, hm, his _⟩
    · have hm : m.Login w image ref opts =
          (.returned (none, some (.Wrap "ACR authentication failed: " ErrUnconfiguredProvider)),
            ["ACR authentication is not enabled. To enable, set the controller flag --azure-autologin-for-acr"],
            m) := by
        simp [Manager.Login, hp, hflag, hazure]
      exact ⟨_, _, hm, his _⟩
  · intro w'
    rcases h with ⟨hp, hflag⟩ | ⟨hp, hflag⟩
    · simp [Manager.Login, hp, hflag, haws]
    · simp [Manager.Login, hp, hflag, hazure]

/-- Witness of C10: the ECR image of the specification with every autologin
flag off, on a fresh manager. -/
theorem Login_disabled_provider_witness :
    ∃ err log,
      (NewManager (gcp.fromSpec [] (.ok []))).Login
          { aws := { NewSession := fun _ => none, GetAuthorizationToken := fun _ _ => .ok ⟨[]⟩ },
            azure := { NewDefaultAzureCredential := .error (.External "no credential"),
                       ExchangeACRAccessToken := fun _ _ => .error (.External "unreachable") } }
          "123456789012.dkr.ecr.us-east-1.amazonaws.com/foo"
          { RegistryStr := "123456789012.dkr.ecr.us-east-1.amazonaws.com" } {} =
        (.returned (none, some err), log, NewManager (gcp.fromSpec [] (.ok []))) ∧
      errors.Is err ErrUnconfiguredProvider = true :=
  (Login_disabled_provider (gcp.fromSpec [] (.ok []))
    { aws := { NewSession := fun _ => none, GetAuthorizationToken := fun _ _ => .ok ⟨[]⟩ },
      azure := { NewDefaultAzureCredential := .error (.External "no credential"),
                 ExchangeACRAccessToken := fun _ _ => .error (.External "unreachable") } }
    (NewManager (gcp.fromSpec [] (.ok [])))
    "123456789012.dkr.ecr.us-east-1.amazonaws.com/foo"
    { RegistryStr := "123456789012.dkr.ecr.us-east-1.amazonaws.com" } {}
    (Or.inl ⟨by decide, rfl⟩)).1

end login

namespace login

open registry

/-- C11: for an image that `ImageRegistryProvider` classifies as Generic,
`Manager.Login` returns `(nil, nil)`, logs nothing and leaves the manager as
it was, for every world and every value of the options: none of the three
clients is called. -/
theorem Login_generic (g : gcp.Package) (w : World) (m : Manager g) (image : String)
    (ref : name.Reference) (opts : ProviderOptions)
    (h : ImageRegistryProvider g image ref = ProviderGeneric) :
    m.Login w image ref opts = (.returned (none, none), [], m) ∧
      ∀ (w' : World) (opts' : ProviderOptions),
        m.Login w' image ref opts' = m.Login w image ref opts := by
  have hm : ∀ (w : World) (opts : ProviderOptions),
      m.Login w image ref opts = (.returned (none, none), [], m) := by
    intro w opts
    simp [Manager.Login, h]
  exact ⟨hm w opts, fun w' opts' => by rw [hm, hm]⟩

/-- Witness of C11: the image `docker.io/library/busybox` with every
autologin flag on. -/
theorem Login_generic_witness :
    (NewManager (gcp.fromSpec [] (.ok []))).Login
        { aws := { NewSession := fun _ => none, GetAuthorizationToken := fun _ _ => .ok ⟨[]⟩ },
          azure := { NewDefaultAzureCredential := .error (.External "no credential"),
                     ExchangeACRAccessToken := fun _ _ => .error (.External "unreachable") } }
        "docker.io/library/busybox" { RegistryStr := "index.docker.io" }
        { AwsAutoLogin := true, GcpAutoLogin := true, AzureAutoLogin := true } =
      (.returned (none, none), [], NewManager (gcp.fromSpec [] (.ok []))) :=
  (Login_generic (gcp.fromSpec [] (.ok []))
    { aws := { NewSession := fun _ => none, GetAuthorizationToken := fun _ _ => .ok ⟨[]⟩ },
      azure := { NewDefaultAzureCredential := .error (.External "no credential"),
                 ExchangeACRAccessToken := fun _ _ => .error (.External "unreachable") } }
    (NewManager (gcp.fromSpec [] (.ok []))) "docker.io/library/busybox"
    { RegistryStr := "index.docker.io" }
    { AwsAutoLogin := true, GcpAutoLogin := true, AzureAutoLogin := true } (by decide)).1

/-- C12: `Manager.Login` hands an AWS image to the ECR client with
`AwsAutoLogin` and the image, a GCP image to the GCR client with
`GcpAutoLogin`, an Azure image to the ACR client with `AzureAutoLogin`, the
image and the reference, and returns that client's result and log lines
unchanged. Only that client's state can change, and the result depends on no
other autologin flag and on no other backend. -/
theorem Login_dispatch (g : gcp.Package) (w : World) (m : Manager g) (image : String)
    (ref : name.Reference) (opts : ProviderOptions) :
    (ImageRegistryProvider g image ref = ProviderAWS →
      m.Login w image ref opts =
          ((m.ecr.Login w.aws opts.AwsAutoLogin image).1,
            (m.ecr.Login w.aws opts.AwsAutoLogin image).2.1,
            { m with ecr := (m.ecr.Login w.aws opts.AwsAutoLogin image).2.2 }) ∧
        ∀ (w' : World) (opts' : ProviderOptions), w'.aws = w.aws →
          opts'.AwsAutoLogin = opts.AwsAutoLogin →
          m.Login w' image ref opts' = m.Login w image ref opts) ∧
    (ImageRegistryProvider g image ref = ProviderGCR →
      m.Login w image ref opts =
          ((g.Login m.gcr opts.GcpAutoLogin image ref).1,
            (g.Login m.gcr opts.GcpAutoLogin image ref).2.1,
            { m with gcr := (g.Login m.gcr opts.GcpAutoLogin image ref).2.2 }) ∧
        ∀ (w' : World) (opts' : ProviderOptions),
          opts'.GcpAutoLogin = opts.GcpAutoLogin →
          m.Login w' image ref opts' = m.Login w image ref opts) ∧
    (ImageRegistryProvider g image ref = ProviderAzure →
      m.Login w image ref opts =
          ((m.acr.Login w.azure opts.AzureAutoLogin image ref).1,
            (m.acr.Login w.azure opts.AzureAutoLogin image ref).2.1,
            { m with acr := (m.acr.Login w.azure opts.AzureAutoLogin image ref).2.2 }) ∧
        ∀ (w' : World) (opts' : ProviderOptions), w'.azure = w.azure →
          opts'.AzureAutoLogin = opts.AzureAutoLogin →
          m.Login w' image ref opts' = m.Login w image ref opts) := by
  refine ⟨fun h => ?_, fun h => ?_, fun h => ?_⟩
  · have hm : ∀ (w : World) (opts : ProviderOptions), m.Login w image ref opts =
          ((m.ecr.Login w.aws opts.AwsAutoLogin image).1,
            (m.ecr.Login w.aws opts.AwsAutoLogin image).2.1,
            { m with ecr := (m.ecr.Login w.aws opts.AwsAutoLogin image).2.2 }) := by
      intro w opts
      simp [Manager.Login, h]
    exact ⟨hm w opts, fun w' opts' hw ho => by rw [hm, hm, hw, ho]⟩
  · have hm : ∀ (w : World) (opts : ProviderOptions), m.Login w image ref opts =
          ((g.Login m.gcr opts.GcpAutoLogin image ref).1,
            (g.Login m.gcr opts.GcpAutoLogin image ref).2.1,
            { m with gcr := (g.Login m.gcr opts.GcpAutoLogin image ref).2.2 }) := by
      intro w opts
      simp [Manager.Login, h]
    exact ⟨hm w opts, fun w' opts' ho => by rw [hm, hm, ho]⟩
  · have hm : ∀ (w : World) (opts : ProviderOptions), m.Login w image ref opts =
          ((m.acr.Login w.azure opts.AzureAutoLogin image ref).1,
            (m.acr.Login w.azure opts.AzureAutoLogin image ref).2.1,
            { m with acr := (m.acr.Login w.azure opts.AzureAutoLogin image ref).2.2 }) := by
      intro w opts
      simp [Manager.Login, h]
    exact ⟨hm w opts, fun w' opts' hw ho => by rw [hm, hm, hw, ho]⟩

end login

/-! ## Claims on the ACR client -/

namespace azure

/-- C13: when the credential source (the one set on the client, or the
default one when none is set) returns the access token `t` and the exchange
step returns the refresh token `r` for `t`, `getLoginAuth` succeeds with
`AuthConfig{Username: "00000000-0000-0000-0000-000000000000", Password: r}`:
the same user name for every registry host, access token and refresh
token. -/
theorem getLoginAuth_success (be : Backend) (c : Client) (ref : name.Reference)
    (tc : azcore.TokenCredential) (t r : GoString)
    (hc : c.credential = some tc ∨
      (c.credential = none ∧ be.NewDefaultAzureCredential = .ok tc))
    (ht : tc.GetToken [armScope] = .ok ⟨t⟩)
    (hr : be.ExchangeACRAccessToken (c.scheme ++ "://" ++ ref.RegistryStr) t = .ok r) :
    (c.getLoginAuth be ref).1 =
      ({ Username := GoString.ofASCII "00000000-0000-0000-0000-000000000000",
         Password := r }, none) := by
  rcases hc with hc | ⟨hc, hd⟩
  · simp [Client.getLoginAuth, Client.exchange, hc, ht, hr]
  · simp [Client.getLoginAuth, Client.exchange, hc, hd, ht, hr]

/-- Witness of C13: the credential of the tests with token `foo`, and a
registry that answers the exchange with status 200 and the body
`{"refresh_token": "bbbbb"}`. -/
theorem getLoginAuth_success_witness :
    (((NewClient.WithTokenCredential (FakeTokenCredential (GoString.ofASCII "foo") none)).WithScheme
        "http").getLoginAuth
      (Backend.ofNetwork (.error (.External "no default credential")) fun _ _ =>
        .ok { StatusCode := 200,
              Body := GoString.ofASCII "\x7b\"refresh_token\": \"bbbbb\"\x7d",
              json := some (.object [("refresh_token", .string (GoString.ofASCII "bbbbb"))]) })
      { RegistryStr := "127.0.0.1:5000" }).1 =
      ({ Username := GoString.ofASCII "00000000-0000-0000-0000-000000000000",
         Password := GoString.ofASCII "bbbbb" }, none) :=
  getLoginAuth_success
    (Backend.ofNetwork (.error (.External "no default credential")) fun _ _ =>
      .ok { StatusCode := 200,
            Body := GoString.ofASCII "\x7b\"refresh_token\": \"bbbbb\"\x7d",
            json := some (.object [("refresh_token", .string (GoString.ofASCII "bbbbb"))]) })
    ((NewClient.WithTokenCredential (FakeTokenCredential (GoString.ofASCII "foo") none)).WithScheme
      "http")
    { RegistryStr := "127.0.0.1:5000" } (FakeTokenCredential (GoString.ofASCII "foo") none)
    (GoString.ofASCII "foo") (GoString.ofASCII "bbbbb") (Or.inl rfl) rfl rfl

/-- C14: with a credential set on the client, `getLoginAuth` returns an error
exactly when the credential fails to give an access token or the exchange
step fails. The error of the credential is returned as it is, whatever the
exchange would have answered; the error of the exchange is wrapped with
"error exchanging token: ". With an error the `AuthConfig` is the zero value
and `Login` with autologin on returns no authenticator and that error. -/
theorem getLoginAuth_failure (be : Backend) (c : Client) (ref : name.Reference)
    (tc : azcore.TokenCredential) (hc : c.credential = some tc) :
    ((c.getLoginAuth be ref).1.2 ≠ none ↔
      ((∃ err, tc.GetToken [armScope] = .error err) ∨
        ∃ t err, tc.GetToken [armScope] = .ok t ∧
          be.ExchangeACRAccessToken (c.scheme ++ "://" ++ ref.RegistryStr) t.Token =
            .error err)) ∧
    (∀ err, tc.GetToken [armScope] = .error err →
      ∀ be' : Backend, (c.getLoginAuth be' ref).1 = ({}, some err)) ∧
    (∀ t err, tc.GetToken [armScope] = .ok t →
      be.ExchangeACRAccessToken (c.scheme ++ "://" ++ ref.RegistryStr) t.Token = .error err →
      (c.getLoginAuth be ref).1 = ({}, some (.Wrap "error exchanging token: " err))) ∧
    (∀ err, (c.getLoginAuth be ref).1.2 = some err →
      (c.getLoginAuth be ref).1.1 = {} ∧
        ∀ image, (c.Login be true image ref).1 = .returned (none, some err)) := by
  have hcred : ∀ err, tc.GetToken [armScope] = .error err →
      ∀ be' : Backend, (c.getLoginAuth be' ref).1 = ({}, some err) := by
    intro err ht be'
    simp [Client.getLoginAuth, Client.exchange, hc, ht]
  have hex : ∀ t err, tc.GetToken [armScope] = .ok t →
      be.ExchangeACRAccessToken (c.scheme ++ "://" ++ ref.RegistryStr) t.Token = .error err →
      (c.getLoginAuth be ref).1 = ({}, some (.Wrap "error exchanging token: " err)) := by
    intro t err ht he
    simp [Client.getLoginAuth, Client.exchange, hc, ht, he]
  refine ⟨?_, hcred, hex, ?_⟩
  · constructor
    · intro h
      cases ht : tc.GetToken [armScope] with
      | error err => exact Or.inl ⟨err, rfl⟩
      | ok t =>
          cases he : be.ExchangeACRAccessToken (c.scheme ++ "://" ++ ref.RegistryStr) t.Token with
          | error err => exact Or.inr ⟨t, err, rfl, he⟩
          | ok r =>
              exfalso
              apply h
              simp [Client.getLoginAuth, Client.exchange, hc, ht, he]
    · rintro (⟨err, ht⟩ | ⟨t, err, ht, he⟩)
      · rw [hcred err ht be]
        simp
      · rw [hex t err ht he]
        simp
  · intro err h
    cases ht : tc.GetToken [armScope] with
    | error e =>
        have hres := hcred e ht be
        rw [hres] at h
        simp only [Option.some.injEq] at h
        subst h
        refine ⟨by rw [hres], fun image => ?_⟩
        simp [Client.Login, Client.getLoginAuth, Client.exchange, hc, ht]
    | ok t =>
        cases he : be.ExchangeACRAccessToken (c.scheme ++ "://" ++ ref.RegistryStr) t.Token with
        | error e =>
            have hres := hex t e ht he
            rw [hres] at h
            simp only [Option.some.injEq] at h
            subst h
            refine ⟨by rw [hres], fun image => ?_⟩
            simp [Client.Login, Client.getLoginAuth, Client.exchange, hc, ht, he]
        | ok r =>
            exfalso
            simp [Client.getLoginAuth, Client.exchange, hc, ht, he] at h

/-- Witness of C14: the credential of the tests with token `foo` and a
registry that answers the exchange with status 500; the credential of the
tests that fails with "no access token"; and a registry that answers with
status 200 and the body `foo`, which is no JSON object. -/
theorem getLoginAuth_failure_witness :
    (((NewClient.WithTokenCredential (FakeTokenCredential (GoString.ofASCII "foo") none)).WithScheme
        "http").getLoginAuth
      (Backend.ofNetwork (.error (.External "no default credential")) fun _ _ =>
        .ok { StatusCode := 500, Body := [], json := none })
      { RegistryStr := "127.0.0.1:5000" }).1 =
      ({}, some (.Wrap "error exchanging token: " (.New "ExchangeHTTPError 500 "))) ∧
    (((NewClient.WithTokenCredential
        (FakeTokenCredential [] (some (.New "no access token")))).WithScheme
        "http").getLoginAuth
      (Backend.ofNetwork (.error (.External "no default credential")) fun _ _ =>
        .ok { StatusCode := 500, Body := [], json := none })
      { RegistryStr := "127.0.0.1:5000" }).1 = ({}, some (.New "no access token")) ∧
    (((NewClient.WithTokenCredential (FakeTokenCredential (GoString.ofASCII "foo") none)).WithScheme
        "http").getLoginAuth
      (Backend.ofNetwork (.error (.External "no default credential")) fun _ _ =>
        .ok { StatusCode := 200, Body := GoString.ofASCII "foo", json := none })
      { RegistryStr := "127.0.0.1:5000" }).1 =
      ({}, some (.Wrap "error exchanging token: " (.New "ExchangeDecodeError"))) :=
  ⟨(getLoginAuth_failure
      (Backend.ofNetwork (.error (.External "no default credential")) fun _ _ =>
        .ok { StatusCode := 500, Body := [], json := none })
      ((NewClient.WithTokenCredential (FakeTokenCredential (GoString.ofASCII "foo") none)).WithScheme
        "http")
      { RegistryStr := "127.0.0.1:5000" } (FakeTokenCredential (GoString.ofASCII "foo") none)
      rfl).2.2.1 ⟨GoString.ofASCII "foo"⟩ (.New "ExchangeHTTPError 500 ") rfl (by decide),
    (getLoginAuth_failure
      (Backend.ofNetwork (.error (.External "no default credential")) fun _ _ =>
        .ok { StatusCode := 500, Body := [], json := none })
      ((NewClient.WithTokenCredential
        (FakeTokenCredential [] (some (.New "no access token")))).WithScheme "http")
      { RegistryStr := "127.0.0.1:5000" }
      (FakeTokenCredential [] (some (.New "no access token"))) rfl).2.1
      (.New "no access token") rfl _,
    (getLoginAuth_failure
      (Backend.ofNetwork (.error (.External "no default credential")) fun _ _ =>
        .ok { StatusCode := 200, Body := GoString.ofASCII "foo", json := none })
      ((NewClient.WithTokenCredential (FakeTokenCredential (GoString.ofASCII "foo") none)).WithScheme
        "http")
      { RegistryStr := "127.0.0.1:5000" } (FakeTokenCredential (GoString.ofASCII "foo") none)
      rfl).2.2.1 ⟨GoString.ofASCII "foo"⟩ (.New "ExchangeDecodeError") rfl (by decide)⟩

end azure

/-! ## Claims on what the ECR client changes -/

namespace aws

/-- C15, the code at the failing input: `Login` of the ECR client with
autologin on writes the region of the image into the configuration the
client holds, whatever the SDK answers; on a fresh manager the region of the
ECR client is unset before the call and `us-east-1` after it. -/
theorem Login_writes_region :
    (∀ (sdk : SDK) (c : Client) (image accountId awsEcrRegion : String),
      ParseImage image = (accountId, awsEcrRegion, true) →
      (c.Login sdk true image).2.2 = ⟨c.Config.WithRegion awsEcrRegion⟩) ∧
    (login.NewManager (gcp.fromSpec [] (.ok []))).ecr.Config.Region = none ∧
    ((login.NewManager (gcp.fromSpec [] (.ok []))).Login
        { aws := { NewSession := fun _ => none,
                   GetAuthorizationToken := fun _ _ =>
                     .ok ⟨[⟨some (GoString.ofASCII "dXNlcjpwYXNz")⟩]⟩ },
          azure := { NewDefaultAzureCredential := .error (.External "no credential"),
                     ExchangeACRAccessToken := fun _ _ => .error (.External "unreachable") } }
        "123456789012.dkr.ecr.us-east-1.amazonaws.com/foo"
        { RegistryStr := "123456789012.dkr.ecr.us-east-1.amazonaws.com" }
        { AwsAutoLogin := true }).2.2.ecr.Config.Region = some "us-east-1" := by
  refine ⟨?_, rfl, by decide⟩
  intro sdk c image accountId awsEcrRegion hp
  have hstate : (c.getLoginAuth sdk accountId awsEcrRegion).2 =
      ⟨c.Config.WithRegion awsEcrRegion⟩ := by
    unfold Client.getLoginAuth
    simp only
    repeat' split
    all_goals rfl
  rcases hg : c.getLoginAuth sdk accountId awsEcrRegion with ⟨res, c'⟩
  rw [hg] at hstate
  simp only at hstate
  subst hstate
  cases res with
  | panicked p => simp [Client.Login, hp, hg]
  | returned pair =>
      obtain ⟨cfg, e⟩ := pair
      cases e <;> simp [Client.Login, hp, hg]

end aws

namespace azure

theorem afterLogins_append (c : Client) (calls₁ calls₂ : List Call) :
    c.afterLogins (calls₁ ++ calls₂) = (c.afterLogins calls₁).afterLogins calls₂ := by
  induction calls₁ generalizing c with
  | nil => rfl
  | cons call calls ih => simp [Client.afterLogins, ih]

theorem getLoginAuth_of_credential (be : Backend) (c : Client) (ref : name.Reference)
    (tc : azcore.TokenCredential) (h : c.credential = some tc) :
    c.getLoginAuth be ref = (c.exchange be tc ref, c) := by
  simp [Client.getLoginAuth, h]

theorem Login_keeps_credential (be : Backend) (c : Client) (autoLogin : Bool) (image : String)
    (ref : name.Reference) (tc : azcore.TokenCredential) (h : c.credential = some tc) :
    (c.Login be autoLogin image ref).2.2 = c := by
  cases autoLogin with
  | false => simp [Client.Login]
  | true =>
      rcases hx : c.exchange be tc ref with ⟨cfg, e⟩
      cases e <;> simp [Client.Login, getLoginAuth_of_credential be c ref tc h, hx]

theorem afterLogins_of_credential (c : Client) (tc : azcore.TokenCredential)
    (h : c.credential = some tc) : ∀ calls : List Call, c.afterLogins calls = c := by
  intro calls
  induction calls with
  | nil => rfl
  | cons call calls ih =>
      rw [Client.afterLogins, Login_keeps_credential _ _ _ _ _ tc h, ih]

/-- C18: in a sequence of calls on one ACR client, a call that starts with
the credential set uses that credential, leaves the client as it is and does
not depend on what constructing the default credential would give; so once
the credential is set, by `WithTokenCredential` or by a call that made the
default one, every later call finds the same credential. A call that starts
with the credential unset and whose default construction fails returns the
construction error and the zero `AuthConfig`, leaves the credential unset and
does not depend on the exchange; when the construction succeeds the call
sets the credential to the one constructed and goes on with it. -/
theorem lazy_credential_sequential (c : Client) :
    (∀ tc, c.credential = some tc →
      (∀ (be : Backend) (ref : name.Reference),
        c.getLoginAuth be ref = (c.exchange be tc ref, c)) ∧
      (∀ (be be' : Backend) (ref : name.Reference),
        be'.ExchangeACRAccessToken = be.ExchangeACRAccessToken →
        c.getLoginAuth be' ref = c.getLoginAuth be ref) ∧
      (∀ calls : List Call, c.afterLogins calls = c)) ∧
    (∀ (tc : azcore.TokenCredential) (calls : List Call),
      ((c.WithTokenCredential tc).afterLogins calls).credential = some tc) ∧
    (∀ (tc : azcore.TokenCredential) (calls later : List Call),
      (c.afterLogins calls).credential = some tc →
      (c.afterLogins (calls ++ later)).credential = some tc) ∧
    (c.credential = none →
      (∀ (be : Backend) (ref : name.Reference) (err : Error),
        be.NewDefaultAzureCredential = .error err →
        c.getLoginAuth be ref = (({}, some err), c)) ∧
      (∀ (be : Backend) (ref : name.Reference) (cred : azcore.TokenCredential),
        be.NewDefaultAzureCredential = .ok cred →
        c.getLoginAuth be ref =
          (({ c with credential := some cred } : Client).exchange be cred ref,
            { c with credential := some cred }))) := by
  refine ⟨fun tc h => ⟨fun be ref => getLoginAuth_of_credential be c ref tc h, ?_,
    afterLogins_of_credential c tc h⟩, ?_, ?_, fun h => ⟨?_, ?_⟩⟩
  · intro be be' ref hex
    rw [getLoginAuth_of_credential be c ref tc h, getLoginAuth_of_credential be' c ref tc h]
    simp [Client.exchange, hex]
  · intro tc calls
    rw [afterLogins_of_credential (c.WithTokenCredential tc) tc rfl]
    rfl
  · intro tc calls later hset
    rw [afterLogins_append, afterLogins_of_credential _ tc hset, hset]
  · intro be ref err hd
    simp [Client.getLoginAuth, h, hd]
  · intro be ref cred hd
    simp [Client.getLoginAuth, h, hd]

end azure

/-! ## Errors of the base64 decoder -/

namespace base64

theorem byteClass_alphabet (b : Byte) :
    byteClass b = .alphabet ↔ ∃ v, decodeMap b = some v := by
  unfold byteClass
  cases decodeMap b with
  | some v => simp
  | none =>
      constructor
      · intro h
        by_cases hb : b = 10 ∨ b = 13
        · simp only [hb, if_true] at h
          cases h
        · simp only [hb, if_false] at h
          split at h <;> cases h
      · rintro ⟨v, hv⟩
        cases hv

theorem byteClass_lineBreak (b : Byte) : byteClass b = .lineBreak ↔ (b = 10 ∨ b = 13) := by
  constructor
  · intro h
    unfold byteClass at h
    cases hd : decodeMap b with
    | some v => rw [hd] at h; cases h
    | none =>
        rw [hd] at h
        by_cases hb : b = 10 ∨ b = 13
        · exact hb
        · simp only [hb, if_false] at h
          split at h <;> cases h
  · rintro (rfl | rfl) <;> decide

theorem byteClass_padding (b : Byte) : byteClass b = .padding ↔ b = StdPadding := by
  constructor
  · intro h
    unfold byteClass at h
    cases hd : decodeMap b with
    | some v => rw [hd] at h; cases h
    | none =>
        rw [hd] at h
        by_cases hb : b = 10 ∨ b = 13
        · simp only [hb, if_true] at h
          cases h
        · simp only [hb, if_false] at h
          by_cases hp : b = StdPadding
          · exact hp
          · simp only [hp, if_false] at h
            cases h
  · rintro rfl
    decide

theorem skipNewlines_length (s : GoString) :
    ∀ si, (skipNewlines s si).2 + (skipNewlines s si).1.length = si + s.length := by
  induction s with
  | nil => intro si; simp [skipNewlines]
  | cons b bs ih =>
      intro si
      unfold skipNewlines
      split
      · rw [ih (si + 1)]
        simp only [List.length_cons]
        omega
      · rfl

theorem skipNewlines_congr (s₁ : GoString) :
    ∀ (s₂ : GoString) (si : Nat), s₁.map byteClass = s₂.map byteClass →
      (skipNewlines s₁ si).2 = (skipNewlines s₂ si).2 ∧
        (skipNewlines s₁ si).1.map byteClass = (skipNewlines s₂ si).1.map byteClass := by
  induction s₁ with
  | nil =>
      intro s₂ si h
      cases s₂ with
      | nil => simp [skipNewlines]
      | cons b bs => simp at h
  | cons b₁ r₁ ih =>
      intro s₂ si h
      cases s₂ with
      | nil => simp at h
      | cons b₂ r₂ =>
          simp only [List.map_cons, List.cons.injEq] at h
          obtain ⟨hb, hr⟩ := h
          by_cases h₁ : b₁ = 10 ∨ b₁ = 13
          · have h₂ : b₂ = 10 ∨ b₂ = 13 := by
              rw [← byteClass_lineBreak, ← hb, byteClass_lineBreak]
              exact h₁
            simp only [skipNewlines, h₁, h₂, if_true]
            exact ih r₂ (si + 1) hr
          · have h₂ : ¬ (b₂ = 10 ∨ b₂ = 13) := by
              rw [← byteClass_lineBreak, ← hb, byteClass_lineBreak]
              exact h₁
            simp only [skipNewlines, h₁, h₂, if_false, List.map_cons, hb, hr, and_self]

theorem afterPadding_error_le (out s : GoString) (si len : Nat) (e : Error)
    (hlen : si + s.length = len) (h : afterPadding out s si = .error e) :
    ∃ off, off ≤ len ∧ e = .CorruptInput off := by
  have hl := skipNewlines_length s si
  unfold afterPadding at h
  rcases hsk : skipNewlines s si with ⟨rest, si'⟩
  rw [hsk] at h hl
  cases rest with
  | nil => cases h
  | cons b bs =>
      simp only [Except.error.injEq] at h
      simp only [List.length_cons] at hl
      exact ⟨si', by omega, h.symm⟩

theorem afterPadding_congr (out₁ out₂ s₁ s₂ : GoString) (si : Nat) (e : Error)
    (hs : s₁.map byteClass = s₂.map byteClass) (h : afterPadding out₁ s₁ si = .error e) :
    afterPadding out₂ s₂ si = .error e := by
  obtain ⟨h2, h1⟩ := skipNewlines_congr s₁ s₂ si hs
  unfold afterPadding at h ⊢
  rcases hsk₁ : skipNewlines s₁ si with ⟨rest₁, si₁⟩
  rcases hsk₂ : skipNewlines s₂ si with ⟨rest₂, si₂⟩
  rw [hsk₁, hsk₂] at h1 h2
  rw [hsk₁] at h
  simp only at h1 h2
  subst h2
  cases rest₁ with
  | nil => cases h
  | cons b bs =>
      cases rest₂ with
      | nil => simp at h1
      | cons b' bs' => exact h

end base64

namespace base64

theorem decodeLoop_error_le (len : Nat) :
    ∀ (s : GoString) (j val si : Nat) (e : Error), si + s.length = len →
      decodeLoop len j val s si = .error e → ∃ off, off ≤ len ∧ e = .CorruptInput off := by
  intro s
  induction s with
  | nil =>
      intro j val si e _ h
      unfold decodeLoop at h
      split at h
      · cases h
      · simp only [Except.error.injEq] at h
        exact ⟨len - j, Nat.sub_le _ _, h.symm⟩
  | cons b bs ih =>
      intro j val si e hlen h
      simp only [List.length_cons] at hlen
      have hlen' : si + 1 + bs.length = len := by omega
      unfold decodeLoop at h
      split at h
      · split at h
        · cases hrec : decodeLoop len 0 0 bs (si + 1) with
          | error e' =>
              rw [hrec] at h
              simp only [Except.map, Except.error.injEq] at h
              subst h
              exact ih _ _ _ _ hlen' hrec
          | ok out =>
              rw [hrec] at h
              simp [Except.map] at h
        · exact ih _ _ _ _ hlen' h
      · split at h
        · exact ih _ _ _ _ hlen' h
        · split at h
          · simp only [Except.error.injEq] at h
            exact ⟨si, by omega, h.symm⟩
          · split at h
            · simp only [Except.error.injEq] at h
              exact ⟨si, by omega, h.symm⟩
            · split at h
              · have hl := skipNewlines_length bs (si + 1)
                split at h
                · simp only [Except.error.injEq] at h
                  exact ⟨len, le_refl _, h.symm⟩
                · rename_i b' bs' si' hsk
                  rw [hsk] at hl
                  simp only [List.length_cons] at hl
                  split at h
                  · simp only [Except.error.injEq] at h
                    exact ⟨si' - 1, by omega, h.symm⟩
                  · exact afterPadding_error_le _ _ _ _ _ (by omega) h
              · exact afterPadding_error_le _ _ _ _ _ hlen' h

/-- An error of `DecodeString` is an offset into the input and nothing else. -/
theorem DecodeString_error (s : GoString) (e : Error) (h : DecodeString s = .error e) :
    ∃ off, off ≤ s.length ∧ e = .CorruptInput off :=
  decodeLoop_error_le _ s 0 0 0 e (by simp) h

theorem decodeLoop_congr (len : Nat) (s₁ : GoString) :
    ∀ (s₂ : GoString) (j val₁ val₂ si : Nat) (e : Error),
      s₁.map byteClass = s₂.map byteClass →
      decodeLoop len j val₁ s₁ si = .error e → decodeLoop len j val₂ s₂ si = .error e := by
  induction s₁ with
  | nil =>
      intro s₂ j val₁ val₂ si e hs h
      cases s₂ with
      | nil =>
          unfold decodeLoop at h ⊢
          exact h
      | cons b bs => simp at hs
  | cons b₁ r₁ ih =>
      intro s₂ j val₁ val₂ si e hs h
      cases s₂ with
      | nil => simp at hs
      | cons b₂ r₂ =>
          simp only [List.map_cons, List.cons.injEq] at hs
          obtain ⟨hb, hr⟩ := hs
          cases hd₁ : decodeMap b₁ with
          | some v₁ =>
              obtain ⟨v₂, hd₂⟩ := (byteClass_alphabet b₂).mp
                (by rw [← hb]; exact (byteClass_alphabet b₁).mpr ⟨v₁, hd₁⟩)
              unfold decodeLoop at h ⊢
              simp only [hd₁, hd₂] at h ⊢
              by_cases hj : j = 3
              · simp only [hj, if_true] at h ⊢
                cases hrec : decodeLoop len 0 0 r₁ (si + 1) with
                | error e' =>
                    rw [hrec] at h
                    simp only [Except.map, Except.error.injEq] at h
                    subst h
                    rw [ih r₂ 0 0 0 (si + 1) e' hr hrec]
                    rfl
                | ok out =>
                    rw [hrec] at h
                    simp [Except.map] at h
              · simp only [hj, if_false] at h ⊢
                exact ih r₂ _ _ _ _ e hr h
          | none =>
              have hd₂ : decodeMap b₂ = none := by
                cases hd : decodeMap b₂ with
                | none => rfl
                | some v₂ =>
                    obtain ⟨v, hv⟩ := (byteClass_alphabet b₁).mp
                      (by rw [hb]; exact (byteClass_alphabet b₂).mpr ⟨v₂, hd⟩)
                    rw [hd₁] at hv
                    cases hv
              have hnl : (b₁ = 10 ∨ b₁ = 13) ↔ (b₂ = 10 ∨ b₂ = 13) := by
                rw [← byteClass_lineBreak, ← byteClass_lineBreak, hb]
              have hpad : b₁ = StdPadding ↔ b₂ = StdPadding := by
                rw [← byteClass_padding, ← byteClass_padding, hb]
              unfold decodeLoop at h ⊢
              simp only [hd₁, hd₂] at h ⊢
              by_cases h₁ : b₁ = 10 ∨ b₁ = 13
              · have h₂ := hnl.mp h₁
                simp only [h₁, h₂, if_true] at h ⊢
                exact ih r₂ _ _ _ _ e hr h
              · have h₂ : ¬ (b₂ = 10 ∨ b₂ = 13) := fun hh => h₁ (hnl.mpr hh)
                simp only [h₁, h₂, if_false] at h ⊢
                by_cases hp₁ : b₁ = StdPadding
                · have hp₂ := hpad.mp hp₁
                  simp only [hp₁, hp₂, ne_eq, not_true_eq_false, if_false] at h ⊢
                  by_cases hj01 : j = 0 ∨ j = 1
                  · simp only [hj01, if_true] at h ⊢
                    exact h
                  · simp only [hj01, if_false] at h ⊢
                    by_cases hj2 : j = 2
                    · simp only [hj2, if_true] at h ⊢
                      obtain ⟨hsi, hrest⟩ := skipNewlines_congr r₁ r₂ (si + 1) hr
                      rcases hsk₁ : skipNewlines r₁ (si + 1) with ⟨rest₁, si₁⟩
                      rcases hsk₂ : skipNewlines r₂ (si + 1) with ⟨rest₂, si₂⟩
                      rw [hsk₁, hsk₂] at hsi hrest
                      rw [hsk₁] at h
                      simp only at hsi hrest
                      subst hsi
                      cases rest₁ with
                      | nil =>
                          cases rest₂ with
                          | nil => exact h
                          | cons c cs => simp at hrest
                      | cons c₁ cs₁ =>
                          cases rest₂ with
                          | nil => simp at hrest
                          | cons c₂ cs₂ =>
                              simp only [List.map_cons, List.cons.injEq] at hrest
                              obtain ⟨hc, hcs⟩ := hrest
                              have hcp : c₁ = StdPadding ↔ c₂ = StdPadding := by
                                rw [← byteClass_padding, ← byteClass_padding, hc]
                              simp only at h ⊢
                              by_cases hc₁ : c₁ = StdPadding
                              · have hc₂ := hcp.mp hc₁
                                simp only [hc₁, hc₂, ne_eq, not_true_eq_false, if_false] at h ⊢
                                exact afterPadding_congr _ _ _ _ _ _ hcs h
                              · have hc₂ : ¬ c₂ = StdPadding := fun hh => hc₁ (hcp.mpr hh)
                                simp only [ne_eq, hc₁, hc₂, not_false_eq_true, if_true] at h ⊢
                                exact h
                    · simp only [hj2, if_false] at h ⊢
                      exact afterPadding_congr _ _ _ _ _ _ hr h
                · have hp₂ : ¬ b₂ = StdPadding := fun hh => hp₁ (hpad.mpr hh)
                  simp only [ne_eq, hp₁, hp₂, not_false_eq_true, if_true] at h ⊢
                  exact h

/-- Whether `DecodeString` fails, and with which error, is fixed by the
classes of the bytes of the input: it does not depend on which alphabet
characters the input holds. -/
theorem DecodeString_error_congr (s₁ s₂ : GoString) (e : Error)
    (hs : s₁.map byteClass = s₂.map byteClass) (h : DecodeString s₁ = .error e) :
    DecodeString s₂ = .error e := by
  have hlen : s₁.length = s₂.length := by
    have := congrArg List.length hs
    simpa using this
  unfold DecodeString at h ⊢
  rw [← hlen]
  exact decodeLoop_congr _ s₁ s₂ 0 0 0 0 e hs h

end base64

/-! ## Claims on what the ECR client reveals -/

namespace aws

/-- Every error `getLoginAuth` returns comes with the zero `AuthConfig` and is
the error of the ECR request, one of two fixed messages, the offset at which
the token of the response fails to decode, or the message with the number of
segments of the decoded token. -/
theorem getLoginAuth_error_cases (sdk : SDK) (c : Client) (accountId awsEcrRegion : String)
    (authConfig : authn.AuthConfig) (err : Error)
    (h : (c.getLoginAuth sdk accountId awsEcrRegion).1 = .returned (authConfig, some err)) :
    authConfig = {} ∧
      (sdk.GetAuthorizationToken (c.Config.WithRegion awsEcrRegion) [accountId] = .error err ∨
        (sdk.GetAuthorizationToken (c.Config.WithRegion awsEcrRegion) [accountId] = .ok ⟨[]⟩ ∧
          err = .New "no authorization data") ∨
        (∃ others,
          sdk.GetAuthorizationToken (c.Config.WithRegion awsEcrRegion) [accountId] =
            .ok ⟨⟨none⟩ :: others⟩ ∧
          err = .New "no authorization token") ∨
        (∃ encoded others off,
          sdk.GetAuthorizationToken (c.Config.WithRegion awsEcrRegion) [accountId] =
            .ok ⟨⟨some encoded⟩ :: others⟩ ∧
          base64.DecodeString encoded = .error err ∧ err = .CorruptInput off ∧
          off ≤ encoded.length) ∨
        ∃ encoded others token,
          sdk.GetAuthorizationToken (c.Config.WithRegion awsEcrRegion) [accountId] =
            .ok ⟨⟨some encoded⟩ :: others⟩ ∧
          base64.DecodeString encoded = .ok token ∧ (strings.Split token 58).length ≠ 2 ∧
          err = .New
            ("invalid authorization token, expected to be of length 2, have " ++
              toString (strings.Split token 58).length)) := by
  cases hs : sdk.NewSession (c.Config.WithRegion awsEcrRegion) with
  | some e => simp [Client.getLoginAuth, hs] at h
  | none =>
  cases hr : sdk.GetAuthorizationToken (c.Config.WithRegion awsEcrRegion) [accountId] with
  | error e =>
      simp [Client.getLoginAuth, hs, hr] at h
      exact ⟨h.1.symm, Or.inl (by rw [h.2])⟩
  | ok out =>
  obtain ⟨data⟩ := out
  cases data with
  | nil =>
      simp [Client.getLoginAuth, hs, hr] at h
      exact ⟨h.1.symm, Or.inr (Or.inl ⟨rfl, h.2.symm⟩)⟩
  | cons d ds =>
  obtain ⟨tok⟩ := d
  cases tok with
  | none =>
      simp [Client.getLoginAuth, hs, hr] at h
      exact ⟨h.1.symm, Or.inr (Or.inr (Or.inl ⟨ds, rfl, h.2.symm⟩))⟩
  | some encoded =>
  cases hd : base64.DecodeString encoded with
  | error e =>
      simp [Client.getLoginAuth, hs, hr, hd] at h
      obtain ⟨off, hle, hoff⟩ := base64.DecodeString_error encoded e hd
      obtain ⟨hcfg, he⟩ := h
      subst he
      exact ⟨hcfg.symm, Or.inr (Or.inr (Or.inr (Or.inl ⟨encoded, ds, off, rfl, hd, hoff, hle⟩)))⟩
  | ok token =>
  by_cases hl : (strings.Split token 58).length = 2
  · exfalso
    obtain ⟨u, p, hsplit⟩ : ∃ u p, strings.Split token 58 = [u, p] := by
      match hsp : strings.Split token 58, hl with
      | [u, p], _ => exact ⟨u, p, rfl⟩
    simp [Client.getLoginAuth, hs, hr, hd, hsplit] at h
  · simp [Client.getLoginAuth, hs, hr, hd, hl] at h
    exact ⟨h.1.symm, Or.inr (Or.inr (Or.inr (Or.inr ⟨encoded, ds, token, rfl, hd, hl, h.2.symm⟩)))⟩

/-- C16: take two ECR responses that carry a token each. When both tokens
decode and the decoded values split at `:` into the same number `n ≠ 2` of
segments, both calls return the same error, whose message is fixed by `n`.
When a token does not decode, the error is the offset of the corrupt input,
at most the length of the token, and every token with the same classes of
bytes (alphabet, line break, padding, other) at the same places gives the
same result. Every error of `getLoginAuth`, for every response, is the error
of the ECR request, a fixed message, that offset or that segment count; an
error of `Login` is one of these, the fixed parse error, or the wrapped
`ErrUnconfiguredProvider`. The lines `Login` logs are fixed by the autologin
flag and the image and do not depend on the backend. -/
theorem getLoginAuth_reveals_structure_only (sdk₁ sdk₂ : SDK) (c : Client)
    (accountId awsEcrRegion : String) (encoded₁ encoded₂ : GoString)
    (others₁ others₂ : List ecr.AuthorizationData)
    (hs₁ : sdk₁.NewSession (c.Config.WithRegion awsEcrRegion) = none)
    (hs₂ : sdk₂.NewSession (c.Config.WithRegion awsEcrRegion) = none)
    (hr₁ : sdk₁.GetAuthorizationToken (c.Config.WithRegion awsEcrRegion) [accountId] =
      .ok ⟨⟨some encoded₁⟩ :: others₁⟩)
    (hr₂ : sdk₂.GetAuthorizationToken (c.Config.WithRegion awsEcrRegion) [accountId] =
      .ok ⟨⟨some encoded₂⟩ :: others₂⟩) :
    (∀ (token₁ token₂ : GoString) (n : Nat),
      base64.DecodeString encoded₁ = .ok token₁ → base64.DecodeString encoded₂ = .ok token₂ →
      (strings.Split token₁ 58).length = n → (strings.Split token₂ 58).length = n → n ≠ 2 →
      (c.getLoginAuth sdk₁ accountId awsEcrRegion).1 =
          .returned ({}, some (.New
            ("invalid authorization token, expected to be of length 2, have " ++
              toString n))) ∧
        (c.getLoginAuth sdk₂ accountId awsEcrRegion).1 =
          (c.getLoginAuth sdk₁ accountId awsEcrRegion).1) ∧
    (∀ err : Error, base64.DecodeString encoded₁ = .error err →
      (c.getLoginAuth sdk₁ accountId awsEcrRegion).1 = .returned ({}, some err) ∧
        (∃ off, off ≤ encoded₁.length ∧ err = .CorruptInput off) ∧
        (encoded₂.map base64.byteClass = encoded₁.map base64.byteClass →
          (c.getLoginAuth sdk₂ accountId awsEcrRegion).1 =
            (c.getLoginAuth sdk₁ accountId awsEcrRegion).1)) ∧
    (∀ (sdk : SDK) (c : Client) (accountId awsEcrRegion : String)
        (authConfig : authn.AuthConfig) (err : Error),
      (c.getLoginAuth sdk accountId awsEcrRegion).1 = .returned (authConfig, some err) →
      authConfig = {} ∧
        (sdk.GetAuthorizationToken (c.Config.WithRegion awsEcrRegion) [accountId] = .error err ∨
          (sdk.GetAuthorizationToken (c.Config.WithRegion awsEcrRegion) [accountId] =
              .ok ⟨[]⟩ ∧
            err = .New "no authorization data") ∨
          (∃ others,
            sdk.GetAuthorizationToken (c.Config.WithRegion awsEcrRegion) [accountId] =
              .ok ⟨⟨none⟩ :: others⟩ ∧
            err = .New "no authorization token") ∨
          (∃ encoded others off,
            sdk.GetAuthorizationToken (c.Config.WithRegion awsEcrRegion) [accountId] =
              .ok ⟨⟨some encoded⟩ :: others⟩ ∧
            base64.DecodeString encoded = .error err ∧ err = .CorruptInput off ∧
            off ≤ encoded.length) ∨
          ∃ encoded others token,
            sdk.GetAuthorizationToken (c.Config.WithRegion awsEcrRegion) [accountId] =
              .ok ⟨⟨some encoded⟩ :: others⟩ ∧
            base64.DecodeString encoded = .ok token ∧ (strings.Split token 58).length ≠ 2 ∧
            err = .New
              ("invalid authorization token, expected to be of length 2, have " ++
                toString (strings.Split token 58).length))) ∧
    (∀ (sdk : SDK) (c : Client) (autoLogin : Bool) (image : String)
        (auth : Option authn.Authenticator) (err : Error),
      (c.Login sdk autoLogin image).1 = .returned (auth, some err) →
      auth = none ∧
        ((autoLogin = true ∧ (ParseImage image).2.2 = false ∧
            err = .New "failed to parse AWS ECR image, invalid ECR image") ∨
          (autoLogin = false ∧
            err = .Wrap "ECR authentication failed: " registry.ErrUnconfiguredProvider) ∨
          (autoLogin = true ∧ (ParseImage image).2.2 = true ∧
            (c.getLoginAuth sdk (ParseImage image).1 (ParseImage image).2.1).1 =
              .returned ({}, some err)))) ∧
    (∀ (sdk : SDK) (c : Client) (autoLogin : Bool) (image : String),
      (c.Login sdk autoLogin image).2.1 =
        if autoLogin then ["logging in to AWS ECR for " ++ image]
        else ["ECR authentication is not enabled. To enable, set the controller flag --aws-autologin-for-ecr"]) := by
  refine ⟨?_, ?_, getLoginAuth_error_cases, ?_, ?_⟩
  · intro token₁ token₂ n hd₁ hd₂ hn₁ hn₂ hn
    have h1 : (c.getLoginAuth sdk₁ accountId awsEcrRegion).1 =
        .returned ({}, some (.New
          ("invalid authorization token, expected to be of length 2, have " ++
            toString n))) := by
      simp [Client.getLoginAuth, hs₁, hr₁, hd₁, hn₁, hn]
    have h2 : (c.getLoginAuth sdk₂ accountId awsEcrRegion).1 =
        .returned ({}, some (.New
          ("invalid authorization token, expected to be of length 2, have " ++
            toString n))) := by
      simp [Client.getLoginAuth, hs₂, hr₂, hd₂, hn₂, hn]
    exact ⟨h1, by rw [h1, h2]⟩
  · intro err hd₁
    have h1 : (c.getLoginAuth sdk₁ accountId awsEcrRegion).1 = .returned ({}, some err) := by
      simp [Client.getLoginAuth, hs₁, hr₁, hd₁]
    refine ⟨h1, base64.DecodeString_error encoded₁ err hd₁, fun hcls => ?_⟩
    have hd₂ := base64.DecodeString_error_congr encoded₁ encoded₂ err hcls.symm hd₁
    rw [h1]
    simp [Client.getLoginAuth, hs₂, hr₂, hd₂]
  · intro sdk c autoLogin image auth err h
    cases autoLogin with
    | false =>
        simp [Client.Login] at h
        exact ⟨h.1.symm, Or.inr (Or.inl ⟨rfl, h.2.symm⟩)⟩
    | true =>
        rcases hp : ParseImage image with ⟨a, r, ok⟩
        cases ok with
        | false =>
            simp [Client.Login, hp] at h
            exact ⟨h.1.symm, Or.inl ⟨rfl, rfl, h.2.symm⟩⟩
        | true =>
            rcases hg : c.getLoginAuth sdk a r with ⟨res, c'⟩
            cases res with
            | panicked p => simp [Client.Login, hp, hg] at h
            | returned pair =>
                obtain ⟨cfg, e⟩ := pair
                cases e with
                | none => simp [Client.Login, hp, hg] at h
                | some e =>
                    simp [Client.Login, hp, hg] at h
                    have hcfg := (getLoginAuth_error_cases sdk c a r cfg e (by rw [hg])).1
                    subst hcfg
                    refine ⟨h.1.symm, Or.inr (Or.inr ⟨rfl, rfl, ?_⟩)⟩
                    simp only
                    rw [h.2]
  · intro sdk c autoLogin image
    cases autoLogin with
    | false => simp [Client.Login]
    | true =>
        rcases hp : ParseImage image with ⟨a, r, ok⟩
        cases ok with
        | false => simp [Client.Login, hp]
        | true =>
            rcases hg : c.getLoginAuth sdk a r with ⟨res, c'⟩
            cases res with
            | panicked p => simp [Client.Login, hp, hg]
            | returned pair =>
                obtain ⟨cfg, e⟩ := pair
                cases e <;> simp [Client.Login, hp, hg]

/-- Witness of C16: the tokens `Zm9vYmFy` and `c2VjcmV0`, which decode to
`foobar` and `secret`, one segment each; and the tokens `hunter2!` and
`passwrd?`, which do not decode and have the same classes of bytes. -/
theorem getLoginAuth_reveals_structure_only_witness :
    ((NewClient.getLoginAuth
          { NewSession := fun _ => none,
            GetAuthorizationToken := fun _ _ => .ok ⟨[⟨some (GoString.ofASCII "Zm9vYmFy")⟩]⟩ }
          "123456789012" "us-east-1").1 =
        .returned ({}, some (.New
          "invalid authorization token, expected to be of length 2, have 1")) ∧
      (NewClient.getLoginAuth
          { NewSession := fun _ => none,
            GetAuthorizationToken := fun _ _ => .ok ⟨[⟨some (GoString.ofASCII "c2VjcmV0")⟩]⟩ }
          "123456789012" "us-east-1").1 =
        (NewClient.getLoginAuth
          { NewSession := fun _ => none,
            GetAuthorizationToken := fun _ _ => .ok ⟨[⟨some (GoString.ofASCII "Zm9vYmFy")⟩]⟩ }
          "123456789012" "us-east-1").1) ∧
    ((NewClient.getLoginAuth
          { NewSession := fun _ => none,
            GetAuthorizationToken := fun _ _ => .ok ⟨[⟨some (GoString.ofASCII "hunter2!")⟩]⟩ }
          "123456789012" "us-east-1").1 = .returned ({}, some (.CorruptInput 7)) ∧
      (NewClient.getLoginAuth
          { NewSession := fun _ => none,
            GetAuthorizationToken := fun _ _ => .ok ⟨[⟨some (GoString.ofASCII "passwrd?")⟩]⟩ }
          "123456789012" "us-east-1").1 =
        (NewClient.getLoginAuth
          { NewSession := fun _ => none,
            GetAuthorizationToken := fun _ _ => .ok ⟨[⟨some (GoString.ofASCII "hunter2!")⟩]⟩ }
          "123456789012" "us-east-1").1) :=
  ⟨(getLoginAuth_reveals_structure_only
      { NewSession := fun _ => none,
        GetAuthorizationToken := fun _ _ => .ok ⟨[⟨some (GoString.ofASCII "Zm9vYmFy")⟩]⟩ }
      { NewSession := fun _ => none,
        GetAuthorizationToken := fun _ _ => .ok ⟨[⟨some (GoString.ofASCII "c2VjcmV0")⟩]⟩ }
      NewClient "123456789012" "us-east-1" (GoString.ofASCII "Zm9vYmFy")
      (GoString.ofASCII "c2VjcmV0") [] [] rfl rfl rfl rfl).1
      (GoString.ofASCII "foobar") (GoString.ofASCII "secret") 1
      (by decide) (by decide) (by decide) (by decide) (by decide),
    ((getLoginAuth_reveals_structure_only
      { NewSession := fun _ => none,
        GetAuthorizationToken := fun _ _ => .ok ⟨[⟨some (GoString.ofASCII "hunter2!")⟩]⟩ }
      { NewSession := fun _ => none,
        GetAuthorizationToken := fun _ _ => .ok ⟨[⟨some (GoString.ofASCII "passwrd?")⟩]⟩ }
      NewClient "123456789012" "us-east-1" (GoString.ofASCII "hunter2!")
      (GoString.ofASCII "passwrd?") [] [] rfl rfl rfl rfl).2.1
      (.CorruptInput 7) (by decide)).1,
    ((getLoginAuth_reveals_structure_only
      { NewSession := fun _ => none,
        GetAuthorizationToken := fun _ _ => .ok ⟨[⟨some (GoString.ofASCII "hunter2!")⟩]⟩ }
      { NewSession := fun _ => none,
        GetAuthorizationToken := fun _ _ => .ok ⟨[⟨some (GoString.ofASCII "passwrd?")⟩]⟩ }
      NewClient "123456789012" "us-east-1" (GoString.ofASCII "hunter2!")
      (GoString.ofASCII "passwrd?") [] [] rfl rfl rfl rfl).2.1
      (.CorruptInput 7) (by decide)).2.2 (by decide)⟩

end aws
